import Mathlib

/-!
Shallow embedding of the Kuba game engine (`KubaGame.py`) and verification of
the specification claims about it.

The embedding models:
  * cells as the four tags `W`, `B`, `R`, `X` (Python uses one-character strings);
  * the board as a `List (List Cell)`;
  * a `Player` as its name, colour and captured list;
  * the mutable `KubaGame` object as a `Game` record, with the two player
    objects addressed by `Pid.a` / `Pid.b` (Python stores object references for
    the turn pointer and the winner; identity of those objects is what `Pid`
    captures);
  * Python's `direction not in "FBLR"` test as genuine substring containment
    (`list_infix`), since Python's `in` on strings is a substring test;
  * the `IndexError` that `pop_error` raises on an empty error stack as the
    `MoveResult.exn` outcome of `make_move`.

Method names keep the Python names (leading underscores dropped).
-/

namespace Kuba

inductive Cell where
  | W
  | B
  | R
  | X
deriving DecidableEq, Repr

structure Player where
  name : String
  color : Cell
  captured : List Cell
deriving DecidableEq, Repr

/-- Identity of the two player objects stored in the game. -/
inductive Pid where
  | a
  | b
deriving DecidableEq, Repr

abbrev Row := List Cell

abbrev Board := List Row

structure Game where
  board : Board
  history : List Board
  turn : Option Pid
  winner : Option Pid
  pa : Player
  pb : Player
  errors : List String
deriving DecidableEq, Repr

/-- Outcome of `make_move`: a returned boolean, or an uncaught exception. -/
inductive MoveResult where
  | ok : Bool → MoveResult
  | exn
deriving DecidableEq, Repr

/-- `Player.get_captured_count`: number of captured marbles of one colour. -/
def get_captured_count (p : Player) (color : Cell) : Nat :=
  p.captured.count color

def playerOf (g : Game) : Pid → Player
  | Pid.a => g.pa
  | Pid.b => g.pb

/-- `KubaGame.get_player`: dictionary lookup by name.  The Python dict is built
as `{a.name: pa, b.name: pb}`, so when both names coincide the later entry
(`pb`) wins; lookup is only performed on registered names. -/
def get_player (g : Game) (playername : String) : Pid :=
  if playername = g.pb.name then Pid.b else Pid.a

/-- Membership test `playername in self.get_players()`. -/
def registered (g : Game) (playername : String) : Prop :=
  playername = g.pa.name ∨ playername = g.pb.name

instance (g : Game) (n : String) : Decidable (registered g n) := by
  unfold registered; infer_instance

/-- Iteration order of `self.get_players().items()` (insertion order; a name
collision collapses the dict to the later entry). -/
def players_items (g : Game) : List Pid :=
  if g.pa.name = g.pb.name then [Pid.b] else [Pid.a, Pid.b]

/-- `KubaGame.get_current_turn`. -/
def get_current_turn (g : Game) : Option String :=
  g.turn.map fun p => (playerOf g p).name

/-- `KubaGame.get_winner`. -/
def get_winner (g : Game) : Option String :=
  g.winner.map fun p => (playerOf g p).name

/-- `KubaGame.get_marble` (only evaluated on in-range coordinates). -/
def get_marble (g : Game) (coordinates : Int × Int) : Cell :=
  (g.board.getD coordinates.1.toNat []).getD coordinates.2.toNat Cell.X

/-- `KubaGame._get_row` (a value copy of the row). -/
def get_row (g : Game) (row_index : Int) : Row :=
  g.board.getD row_index.toNat []

/-- `KubaGame._get_column`. -/
def get_column (g : Game) (column_index : Int) : Row :=
  g.board.map fun row => row.getD column_index.toNat Cell.X

/-- `KubaGame._replace_row`. -/
def replace_row (row_index : Int) (row : Row) (b : Board) : Board :=
  b.set row_index.toNat row

/-- `KubaGame._replace_column`. -/
def replace_column (column_index : Int) (column : Row) (b : Board) : Board :=
  List.zipWith (fun r v => r.set column_index.toNat v) b column

/-- `KubaGame._is_same_board`: row-by-row comparison over `board_1`'s indices. -/
def is_same_board (b1 b2 : Board) : Bool :=
  (List.range b1.length).all fun i => b1.getD i [] == b2.getD i []

/-- `KubaGame._push_right`.  Scans from `position` for the first Empty; if one
is found it is popped and an Empty inserted at `position` (nothing ejected),
otherwise an Empty is inserted at `position` and the last element popped and
returned. -/
def push_right (position : Nat) (a_list : Row) : Option Cell × Row :=
  match (a_list.drop position).findIdx? (fun x => x = Cell.X) with
  | some j => (none, (a_list.eraseIdx (position + j)).insertIdx position Cell.X)
  | none =>
      ((a_list.insertIdx position Cell.X).getLast?,
        (a_list.insertIdx position Cell.X).dropLast)

/-- Python's substring containment (`needle in hay` on strings). -/
def list_infix (needle : List Char) : List Char → Bool
  | [] => needle.isEmpty
  | c :: t => needle.isPrefixOf (c :: t) || list_infix needle t

/-- `direction in "FBLR"` as Python evaluates it: a substring test. -/
def py_in_str (needle hay : String) : Bool :=
  list_infix needle.data hay.data

/-- `coordinates[coord_index]` for `coord_index` in `{0, 1}`. -/
def coordAt (coordinates : Int × Int) (coord_index : Nat) : Int :=
  if coord_index = 0 then coordinates.1 else coordinates.2

/-- The inner `helper` of `KubaGame._is_valid_push`.  Returns the boolean
outcome together with the updated error stack. -/
def is_valid_push_helper (g : Game) (coordinates : Int × Int) (player_marble : Cell)
    (coord_index : Nat) (extreme_index : Int) (immediate extreme : Int × Int) :
    Option Bool × List String :=
  let row_or_col : Row :=
    if coord_index = 0 then get_column g coordinates.2 else get_row g coordinates.1
  let ci : Int := coordAt coordinates coord_index
  let slice : Row :=
    if extreme_index < ci then row_or_col.drop ci.toNat else row_or_col.take ci.toNat
  if player_marble = get_marble g extreme ∧ Cell.X ∉ slice then
    (some false, g.errors ++ ["You cannot capture your own marble!"])
  else if ci = extreme_index then
    (some true, g.errors)
  else if get_marble g immediate = Cell.X then
    (some true, g.errors)
  else
    (some false, g.errors ++ ["Cant push from this direction!"])

/-- `KubaGame._is_valid_push`.  Result `none` models the Python fall-through
(no branch taken, function returns `None`). -/
def is_valid_push (g : Game) (coordinates : Int × Int) (direction : String)
    (player_marble : Cell) : Option Bool × List String :=
  let r := coordinates.1
  let c := coordinates.2
  if direction = "L" then
    is_valid_push_helper g coordinates player_marble 1 6 (r, c + 1) (r, 0)
  else if direction = "R" then
    is_valid_push_helper g coordinates player_marble 1 0 (r, c - 1) (r, 6)
  else if direction = "B" then
    is_valid_push_helper g coordinates player_marble 0 0 (r - 1, c) (6, c)
  else if direction = "F" then
    is_valid_push_helper g coordinates player_marble 0 6 (r + 1, c) (0, c)
  else
    (none, g.errors)

/-- `KubaGame._move_is_valid`.  Returns `none` when the Python code raises
(`pop` on an empty error stack), otherwise `some` of the boolean outcome and
the updated error stack. -/
def move_is_valid (g : Game) (playername : String) (coordinates : Int × Int)
    (direction : String) : Option (Bool × List String) :=
  if ¬ py_in_str direction "FBLR" then
    some (false, g.errors ++ ["Not a valid direction: F,B,L,R"])
  else if ¬ registered g playername then
    some (false, g.errors ++ ["Player doesn\x27t exist!"])
  else if get_winner g ≠ none then
    some (false, g.errors ++ ["A player has already won: " ++ (get_winner g).getD ""])
  else if ¬ (0 ≤ coordinates.1 ∧ coordinates.1 ≤ 6 ∧ 0 ≤ coordinates.2 ∧ coordinates.2 ≤ 6) then
    some (false, g.errors ++ ["Coordinates are not in range!"])
  else if get_current_turn g ≠ none ∧ playername ≠ (get_current_turn g).getD "" then
    some (false, g.errors ++ ["Not your turn. Current turn: " ++ (get_current_turn g).getD ""])
  else if get_marble g coordinates ≠ (playerOf g (get_player g playername)).color then
    some (false, g.errors ++ ["Not your marble!"])
  else
    let pr := is_valid_push g coordinates direction (playerOf g (get_player g playername)).color
    if pr.1 = some true then some (true, pr.2)
    else
      match pr.2.getLast? with
      | none => none
      | some e => some (false, pr.2.dropLast ++ ["Cant push because: " ++ e])

/-- `KubaGame._check_win_conditions`: sets the winner to the first player in
dict order whose captured counts satisfy a win condition. -/
def wins_now (p : Player) : Bool :=
  get_captured_count p Cell.R = 7 ∨ get_captured_count p Cell.B = 8 ∨
    get_captured_count p Cell.W = 8

def check_win_conditions (g : Game) : Game :=
  match (players_items g).find? (fun pid => wins_now (playerOf g pid)) with
  | some pid => { g with winner := some pid }
  | none => g

/-- The board-copy push of `make_move`: the per-direction dispatch onto
`_push_right`, returning the captured marble and the pushed board copy. -/
def apply_push (g : Game) (coordinates : Int × Int) (direction : String) :
    Option Cell × Board :=
  if direction = "R" then
    let row := get_row g coordinates.1
    let res := push_right coordinates.2.toNat row
    (res.1, replace_row coordinates.1 res.2 g.board)
  else if direction = "B" then
    let column := get_column g coordinates.2
    let res := push_right coordinates.1.toNat column
    (res.1, replace_column coordinates.2 res.2 g.board)
  else if direction = "L" then
    let row := (get_row g coordinates.1).reverse
    let res := push_right (6 - coordinates.2).toNat row
    (res.1, replace_row coordinates.1 res.2.reverse g.board)
  else if direction = "F" then
    let column := (get_column g coordinates.2).reverse
    let res := push_right (6 - coordinates.1).toNat column
    (res.1, replace_column coordinates.2 res.2.reverse g.board)
  else
    (none, g.board)

/-- `Player.capture` on the player object designated by `pid`. -/
def capture_marble (g : Game) (pid : Pid) (m : Cell) : Game :=
  match pid with
  | Pid.a => { g with pa := { g.pa with captured := g.pa.captured ++ [m] } }
  | Pid.b => { g with pb := { g.pb with captured := g.pb.captured ++ [m] } }

/-- `KubaGame.make_move`. -/
def make_move (g : Game) (playername : String) (coordinates : Int × Int)
    (direction : String) : MoveResult × Game :=
  let g1 := check_win_conditions g
  match move_is_valid g1 playername coordinates direction with
  | none => (MoveResult.exn, g1)
  | some (false, errs) => (MoveResult.ok false, { g1 with errors := errs })
  | some (true, errs) =>
    let g2 : Game := { g1 with errors := errs }
    let res := apply_push g2 coordinates direction
    if g2.history.length > 1 ∧
        is_same_board (g2.history.getD (g2.history.length - 2) []) res.2 then
      (MoveResult.ok false, { g2 with errors := g2.errors ++ ["Cannot make a circular move!"] })
    else
      let pid := get_player g2 playername
      let g3 := match res.1 with
        | some m => capture_marble g2 pid m
        | none => g2
      (MoveResult.ok true,
        { g3 with
          board := res.2
          history := g3.history ++ [res.2]
          turn := some (if pid = Pid.a then Pid.b else Pid.a) })

open Cell in
/-- The board literal of `KubaGame.__init__`. -/
def initial_board : Board :=
  [[W, W, X, X, X, B, B],
   [W, W, X, R, X, B, B],
   [X, X, R, R, R, X, X],
   [X, R, R, R, R, R, X],
   [X, X, R, R, R, X, X],
   [B, B, X, R, X, W, W],
   [B, B, X, X, X, W, W]]

/-- `KubaGame.__init__`. -/
def init_game (player_a_info player_b_info : String × Cell) : Game :=
  { board := initial_board
    history := []
    turn := none
    winner := none
    pa := { name := player_a_info.1, color := player_a_info.2, captured := [] }
    pb := { name := player_b_info.1, color := player_b_info.2, captured := [] }
    errors := [] }

/-- A `make_move` request: the arguments of one call. -/
structure Req where
  name : String
  coords : Int × Int
  dir : String

/-- Apply a sequence of `make_move` calls, threading the game state (callers of
a Python object keep using it after a rejected move, and may also do so after
catching an exception). -/
def run_moves (g : Game) : List Req → Game
  | [] => g
  | r :: rs => run_moves (make_move g r.name r.coords r.dir).2 rs

/-- Number of calls in the sequence that return `True`. -/
def count_commits (g : Game) : List Req → Nat
  | [] => 0
  | r :: rs =>
    (if (make_move g r.name r.coords r.dir).1 = MoveResult.ok true then 1 else 0) +
      count_commits (make_move g r.name r.coords r.dir).2 rs

/-- Number of cells of one colour on a board (`get_marble_count` counts this
way, row by row). -/
def marble_count (b : Board) (color : Cell) : Nat :=
  (b.map fun row => row.count color).sum

/-- A demonstration game: player `"A"` plays white, `"B"` plays black. -/
def demo_game : Game :=
  init_game ("A", Cell.W) ("B", Cell.B)

/-- The state after the committed opening push `A, (0,0), R`. -/
def demo_after_first : Game :=
  (make_move demo_game "A" ((0 : Int), (0 : Int)) "R").2

open Cell in
/-- A game state whose row 0 is `[W,X,X,X,X,X,W]`: white at both ends of the
row with Empty cells between them. -/
def game_edge_push : Game :=
  { board := [[W, X, X, X, X, X, W],
              [W, W, X, R, X, B, B],
              [X, X, R, R, R, X, X],
              [X, R, R, R, R, R, X],
              [X, X, R, R, R, X, X],
              [B, B, X, R, X, W, W],
              [B, B, X, X, X, W, W]]
    history := []
    turn := none
    winner := none
    pa := { name := "A", color := W, captured := [] }
    pb := { name := "B", color := B, captured := [] }
    errors := [] }

open Cell in
/-- A game state in which player A has just captured a seventh red marble and
the win has not yet been evaluated (the winner field is still unset). -/
def game_pending_win : Game :=
  { board := initial_board
    history := []
    turn := none
    winner := none
    pa := { name := "A", color := W, captured := [R, R, R, R, R, R, R] }
    pb := { name := "B", color := B, captured := [] }
    errors := [] }

/-- A game state with two snapshots in history whose oldest snapshot is
recreated by the (otherwise valid) push `A, (0,0), R`. -/
def game_two_snapshots : Game :=
  { board := initial_board
    history := [demo_after_first.board, initial_board]
    turn := some Pid.a
    winner := none
    pa := { name := "A", color := Cell.W, captured := [] }
    pb := { name := "B", color := Cell.B, captured := [] }
    errors := [] }

/-! ### General list lemmas used by the push-engine proofs -/

theorem insertIdx_split {α : Type*} (n : Nat) (x : α) (l : List α) (h : n ≤ l.length) :
    l.insertIdx n x = l.take n ++ x :: l.drop n := by
  induction l generalizing n with
  | nil =>
    simp only [List.length_nil, Nat.le_zero] at h
    subst h
    simp [List.insertIdx]
  | cons a t ih =>
    cases n with
    | zero => simp [List.insertIdx]
    | succ m =>
      simp only [List.length_cons, Nat.add_le_add_iff_right] at h
      simp [List.insertIdx_succ_cons, ih m h]

theorem eraseIdx_split {α : Type*} (l : List α) (n : Nat) :
    l.eraseIdx n = l.take n ++ l.drop (n + 1) := by
  induction l generalizing n with
  | nil => simp
  | cons a t ih =>
    cases n with
    | zero => simp
    | succ m => simp [List.eraseIdx_cons_succ, ih m]

/-! ### Push-engine lemmas -/

/-- Unfolding of `push_right` when the scan finds an Empty. -/
theorem push_right_found_eq (l : Row) (p j : Nat)
    (h : (l.drop p).findIdx? (fun x => x = Cell.X) = some j) :
    push_right p l = (none, (l.eraseIdx (p + j)).insertIdx p Cell.X) := by
  unfold push_right
  rw [h]

/-- Unfolding of `push_right` when the scan finds no Empty. -/
theorem push_right_eject_eq (l : Row) (p : Nat)
    (h : (l.drop p).findIdx? (fun x => x = Cell.X) = none) :
    push_right p l =
      ((l.insertIdx p Cell.X).getLast?, (l.insertIdx p Cell.X).dropLast) := by
  unfold push_right
  rw [h]

theorem getElem?_insertIdx_cases {α : Type*} (n : Nat) (x : α) (l : List α)
    (h : n ≤ l.length) (k : Nat) :
    (l.insertIdx n x)[k]? =
      if k < n then l[k]? else if k = n then some x else l[k - 1]? := by
  rw [insertIdx_split n x l h, List.getElem?_append]
  rcases Nat.lt_trichotomy k n with hk | hk | hk
  · simp only [List.length_take, List.getElem?_take]
    have h1 : k < n ⊓ l.length := by omega
    simp [h1, hk]
  · subst hk
    have h1 : ¬ k < k ⊓ l.length := by omega
    have h2 : k - k ⊓ l.length = 0 := by omega
    simp [h1, h2]
  · have h1 : ¬ k < n ⊓ l.length := by omega
    have h2 : ¬ k < n := by omega
    have h3 : k ≠ n := by omega
    have h4 : k - n ⊓ l.length = (k - n - 1) + 1 := by omega
    simp only [List.length_take, h1, if_neg, h2, h3, if_false]
    rw [h4, List.getElem?_cons_succ, List.getElem?_drop]
    congr 1
    omega

theorem getElem?_eraseIdx_cases {α : Type*} (l : List α) (n : Nat) (k : Nat) :
    (l.eraseIdx n)[k]? = if k < n then l[k]? else l[k + 1]? := by
  rw [eraseIdx_split, List.getElem?_append]
  simp only [List.length_take]
  rcases Nat.lt_or_ge k n with hk | hk
  · by_cases h1 : k < n ⊓ l.length
    · rw [if_pos h1, if_pos hk, List.getElem?_take, if_pos hk]
    · rw [if_neg h1, if_pos hk]
      rw [List.getElem?_eq_none (by rw [List.length_drop]; omega),
        List.getElem?_eq_none (by omega)]
  · rw [if_neg (by omega : ¬ k < n ⊓ l.length), if_neg (by omega : ¬ k < n)]
    by_cases h3 : n ≤ l.length
    · rw [List.getElem?_drop]
      congr 1
      omega
    · rw [List.getElem?_eq_none (by rw [List.length_drop]; omega),
        List.getElem?_eq_none (by omega)]

/-- The scan of `push_right` translated: if `i` is the first index at or after
`position` holding an Empty, the scan finds it. -/
theorem findIdx_first_X (l : Row) (p i : Nat) (hi : i < l.length) (hpi : p ≤ i)
    (hX : l[i]? = some Cell.X)
    (hfirst : ∀ k, p ≤ k → k < i → l[k]? ≠ some Cell.X) :
    (l.drop p).findIdx? (fun x => x = Cell.X) = some (i - p) := by
  rw [List.findIdx?_eq_some_iff_findIdx_eq]
  have hlen : (l.drop p).length = l.length - p := List.length_drop p l
  have hb : i - p < (l.drop p).length := by omega
  refine ⟨hb, ?_⟩
  rw [List.findIdx_eq hb]
  constructor
  · have h1 : (l.drop p)[i - p]? = l[i]? := by
      rw [List.getElem?_drop]; congr 1; omega
    have h2 : (l.drop p)[i - p]? = some ((l.drop p)[i - p]) :=
      List.getElem?_eq_getElem hb
    have h4 : (l.drop p)[i - p] = Cell.X :=
      Option.some.inj (h2.symm.trans (h1.trans hX))
    simp only [decide_eq_true_eq]
    exact h4
  · intro j hj
    have hjb : j < (l.drop p).length := by omega
    have h1 : (l.drop p)[j]? = l[p + j]? := List.getElem?_drop l p j
    have h2 : (l.drop p)[j]? = some ((l.drop p)[j]) :=
      List.getElem?_eq_getElem hjb
    have h3 : l[p + j]? ≠ some Cell.X := hfirst (p + j) (by omega) (by omega)
    by_contra hc
    simp only [Bool.not_eq_false, decide_eq_true_eq] at hc
    rw [hc] at h2
    rw [h1] at h2
    exact h3 h2

/-- The scan of `push_right` translated: if no index at or after `position`
holds an Empty, the scan fails. -/
theorem findIdx_no_X (l : Row) (p : Nat)
    (hnoX : ∀ k, p ≤ k → k < l.length → l[k]? ≠ some Cell.X) :
    (l.drop p).findIdx? (fun x => x = Cell.X) = none := by
  rw [List.findIdx?_eq_none_iff]
  intro x hx
  obtain ⟨j, hj, hjx⟩ := List.getElem_of_mem hx
  have h1 : (l.drop p)[j]? = l[p + j]? := List.getElem?_drop l p j
  have h2 : (l.drop p)[j]? = some x := by
    rw [List.getElem?_eq_getElem hj, hjx]
  have hjl : p + j < l.length := by
    have := List.length_drop p l
    omega
  have h3 : l[p + j]? ≠ some Cell.X := hnoX (p + j) (by omega) hjl
  by_contra hc
  simp only [Bool.not_eq_false, decide_eq_true_eq] at hc
  subst hc
  rw [h1] at h2
  exact h3 h2

theorem self_perm_cons_eraseIdx {α : Type*} (l : List α) (i : Nat) (hi : i < l.length) :
    l.Perm (l[i] :: l.eraseIdx i) := by
  conv_lhs => rw [← List.take_append_drop i l, ← List.getElem_cons_drop l i hi]
  rw [eraseIdx_split]
  exact List.perm_middle

/-- In the gap-found case the pushed line is a permutation of the input line. -/
theorem push_right_found_perm (l : Row) (p j : Nat)
    (h : (l.drop p).findIdx? (fun x => x = Cell.X) = some j) :
    (push_right p l).2.Perm l := by
  obtain ⟨hj, hfind⟩ := List.findIdx?_eq_some_iff_findIdx_eq.mp h
  have hlen : p + j < l.length := by
    have := List.length_drop p l
    omega
  have hXj : (l.drop p)[j] = Cell.X := by
    have hpred := (List.findIdx_eq hj).mp hfind
    have := hpred.1
    simpa using this
  have hXi : l[p + j] = Cell.X := by
    have h1 : (l.drop p)[j]? = l[p + j]? := List.getElem?_drop l p j
    rw [List.getElem?_eq_getElem hj, List.getElem?_eq_getElem hlen] at h1
    rw [← Option.some.inj h1, hXj]
  have hperm2 : l.Perm (Cell.X :: l.eraseIdx (p + j)) := by
    have := self_perm_cons_eraseIdx l (p + j) hlen
    rwa [hXi] at this
  have hpe : p ≤ (l.eraseIdx (p + j)).length := by
    rw [List.length_eraseIdx, if_pos hlen]
    omega
  have hperm1 : ((l.eraseIdx (p + j)).insertIdx p Cell.X).Perm
      (Cell.X :: l.eraseIdx (p + j)) := List.perm_insertIdx Cell.X _ hpe
  rw [push_right_found_eq l p j h]
  exact hperm1.trans hperm2.symm

/-- In the no-gap case `push_right` ejects the last cell of the scanned suffix
and shifts the suffix one step. -/
theorem push_right_eject_decomp (l : Row) (p : Nat) (hp : p < l.length)
    (h : (l.drop p).findIdx? (fun x => x = Cell.X) = none) :
    (push_right p l).1 = (l.drop p).getLast?
    ∧ (push_right p l).2 = l.take p ++ Cell.X :: (l.drop p).dropLast := by
  have hD : l.drop p ≠ [] := by
    apply List.ne_nil_of_length_pos
    rw [List.length_drop]
    omega
  have hsplit : (l.drop p).dropLast ++ [(l.drop p).getLast hD] = l.drop p :=
    List.dropLast_append_getLast hD
  have key : l.take p ++ Cell.X :: l.drop p =
      (l.take p ++ Cell.X :: (l.drop p).dropLast) ++ [(l.drop p).getLast hD] := by
    rw [List.append_assoc, List.cons_append, hsplit]
  rw [push_right_eject_eq l p h, insertIdx_split p Cell.X l (le_of_lt hp)]
  constructor
  · rw [key, List.getLast?_concat, List.getLast?_eq_getLast _ hD]
  · rw [key, List.dropLast_concat]

/-- Colour-count conservation of the push primitive: for any non-Empty colour,
the pushed line plus the ejected marble carry exactly the input occurrences. -/
theorem push_right_count (l : Row) (p : Nat) (h7 : l.length = 7) (hp : p ≤ 6)
    (c : Cell) (hc : c ≠ Cell.X) :
    (push_right p l).2.count c +
      (match (push_right p l).1 with
       | some e => if e = c then 1 else 0
       | none => 0) = l.count c := by
  cases hfi : (l.drop p).findIdx? (fun x => x = Cell.X) with
  | some j =>
    have hperm := push_right_found_perm l p j hfi
    have h1 : (push_right p l).1 = none := by rw [push_right_found_eq l p j hfi]
    rw [h1]
    simpa using hperm.count_eq c
  | none =>
    have hD : l.drop p ≠ [] := by
      apply List.ne_nil_of_length_pos
      rw [List.length_drop]
      omega
    obtain ⟨h1, h2⟩ := push_right_eject_decomp l p (by omega) hfi
    rw [h1, h2, List.getLast?_eq_getLast _ hD]
    have hXc : (Cell.X == c) = false := by simp [Ne.symm hc]
    have hcl : l.count c = (l.take p).count c + (l.drop p).count c := by
      conv_lhs => rw [← List.take_append_drop p l]
      rw [List.count_append]
    have hcd : (l.drop p).count c =
        ((l.drop p).dropLast).count c +
          (if (l.drop p).getLast hD = c then 1 else 0) := by
      conv_lhs => rw [← List.dropLast_append_getLast hD]
      rw [List.count_append, List.count_singleton]
      by_cases he : (l.drop p).getLast hD = c
      · simp [he]
      · simp [he]
    rw [hcl, hcd, List.count_append, List.count_cons, hXc]
    have hm : (match some ((l.drop p).getLast hD) with
        | some e => if e = c then 1 else 0
        | none => (0 : Nat)) = (if (l.drop p).getLast hD = c then 1 else 0) := rfl
    rw [hm]
    simp only [Bool.false_eq_true, if_false]
    omega

/-- C1: for every 7-cell line and insert position `p ≤ 6`, `_push_right`
behaves as the specified `pushLine`: the result keeps length 7; if `i` is the
first index at or after `p` holding an Empty, nothing is ejected, the Empty
moves to `p`, cells `p..i-1` shift one step toward the far end, all other
cells are unchanged, and the multiset of non-Empty cells is preserved; if no
Empty exists at or after `p`, the far-end cell (index 6) is ejected and
returned, an Empty appears at `p`, cells `p..5` shift one step, cells below
`p` are unchanged, and the non-Empty multiset loses exactly the ejected
cell. -/
theorem c1_push_right_matches_pushLine (l : Row) (p : Nat)
    (h7 : l.length = 7) (hp : p ≤ 6) :
    (push_right p l).2.length = 7
    ∧ (∀ i, p ≤ i → i < 7 → l[i]? = some Cell.X →
        (∀ k, p ≤ k → k < i → l[k]? ≠ some Cell.X) →
        (push_right p l).1 = none
        ∧ (push_right p l).2[p]? = some Cell.X
        ∧ (∀ k, k < p → (push_right p l).2[k]? = l[k]?)
        ∧ (∀ k, p ≤ k → k < i → (push_right p l).2[k + 1]? = l[k]?)
        ∧ (∀ k, i < k → k < 7 → (push_right p l).2[k]? = l[k]?)
        ∧ (((push_right p l).2.filter fun c => c ≠ Cell.X : List Cell) : Multiset Cell)
            = ((l.filter fun c => c ≠ Cell.X : List Cell) : Multiset Cell))
    ∧ ((∀ k, p ≤ k → k < 7 → l[k]? ≠ some Cell.X) →
        (push_right p l).1 = l[6]?
        ∧ (push_right p l).2[p]? = some Cell.X
        ∧ (∀ k, k < p → (push_right p l).2[k]? = l[k]?)
        ∧ (∀ k, p ≤ k → k < 6 → (push_right p l).2[k + 1]? = l[k]?)
        ∧ (∀ e, (push_right p l).1 = some e →
            (((push_right p l).2.filter fun c => c ≠ Cell.X : List Cell) : Multiset Cell)
                + {e}
              = ((l.filter fun c => c ≠ Cell.X : List Cell) : Multiset Cell))) := by
  have hDne : l.drop p ≠ [] := by
    apply List.ne_nil_of_length_pos
    rw [List.length_drop]
    omega
  refine ⟨?_, ?_, ?_⟩
  · -- length preservation
    cases hfi : (l.drop p).findIdx? (fun x => x = Cell.X) with
    | some j =>
      obtain ⟨hj, -⟩ := List.findIdx?_eq_some_iff_findIdx_eq.mp hfi
      have hlen : p + j < l.length := by
        have := List.length_drop p l
        omega
      rw [push_right_found_eq l p j hfi]
      rw [List.length_insertIdx]
      · rw [List.length_eraseIdx, if_pos hlen]
        omega
      · rw [List.length_eraseIdx, if_pos hlen]
        omega
    | none =>
      obtain ⟨-, h2⟩ := push_right_eject_decomp l p (by omega) hfi
      rw [h2]
      simp only [List.length_append, List.length_cons, List.length_take,
        List.length_dropLast, List.length_drop, h7]
      omega
  · -- gap-found case
    intro i hpi hi hX hfirst
    have hfi : (l.drop p).findIdx? (fun x => x = Cell.X) = some (i - p) :=
      findIdx_first_X l p i (by omega) hpi hX hfirst
    have hres2 : (push_right p l).2 = (l.eraseIdx i).insertIdx p Cell.X := by
      rw [push_right_found_eq l p (i - p) hfi, show p + (i - p) = i by omega]
    have hpE : p ≤ (l.eraseIdx i).length := by
      rw [List.length_eraseIdx, if_pos (by omega : i < l.length)]
      omega
    refine ⟨?_, ?_, ?_, ?_, ?_, ?_⟩
    · rw [push_right_found_eq l p (i - p) hfi]
    · rw [hres2, getElem?_insertIdx_cases p Cell.X _ hpE p,
        if_neg (by omega), if_pos rfl]
    · intro k hk
      rw [hres2, getElem?_insertIdx_cases p Cell.X _ hpE k, if_pos hk,
        getElem?_eraseIdx_cases, if_pos (by omega : k < i)]
    · intro k h1k h2k
      rw [hres2, getElem?_insertIdx_cases p Cell.X _ hpE (k + 1),
        if_neg (by omega), if_neg (by omega), getElem?_eraseIdx_cases,
        if_pos (by omega : k + 1 - 1 < i)]
      congr 1
    · intro k h1k h2k
      rw [hres2, getElem?_insertIdx_cases p Cell.X _ hpE k,
        if_neg (by omega), if_neg (by omega), getElem?_eraseIdx_cases,
        if_neg (by omega : ¬ k - 1 < i)]
      congr 1
      omega
    · exact Multiset.coe_eq_coe.mpr
        ((push_right_found_perm l p (i - p) hfi).filter _)
  · -- no-gap (ejection) case
    intro hnoX
    have hfi : (l.drop p).findIdx? (fun x => x = Cell.X) = none :=
      findIdx_no_X l p (fun k hk1 hk2 => hnoX k hk1 (by omega))
    obtain ⟨h1, h2⟩ := push_right_eject_decomp l p (by omega) hfi
    have hDall : ∀ a ∈ l.drop p, (fun c => decide (c ≠ Cell.X)) a = true := by
      intro a ha
      obtain ⟨j, hj, hja⟩ := List.getElem_of_mem ha
      have hg : (l.drop p)[j]? = l[p + j]? := List.getElem?_drop l p j
      rw [List.getElem?_eq_getElem hj, hja] at hg
      have hb : p + j < l.length := by
        have := List.length_drop p l
        omega
      have hne : l[p + j]? ≠ some Cell.X := hnoX (p + j) (by omega) (by omega)
      simp only [decide_eq_true_eq]
      intro hax
      rw [hax] at hg
      exact hne hg.symm
    refine ⟨?_, ?_, ?_, ?_, ?_⟩
    · rw [h1, List.getLast?_eq_getElem?, List.getElem?_drop, List.length_drop]
      congr 1
      omega
    · simp only [h2, List.getElem?_append, List.length_take, h7]
      rw [if_neg (by omega : ¬ p < p ⊓ 7), show p - p ⊓ 7 = 0 by omega,
        List.getElem?_cons_zero]
    · intro k hk
      simp only [h2, List.getElem?_append, List.length_take, h7]
      rw [if_pos (by omega : k < p ⊓ 7), List.getElem?_take, if_pos hk]
    · intro k h1k h2k
      simp only [h2, List.getElem?_append, List.length_take, h7]
      rw [if_neg (by omega : ¬ k + 1 < p ⊓ 7),
        show k + 1 - p ⊓ 7 = (k - p) + 1 by omega, List.getElem?_cons_succ,
        List.getElem?_dropLast, List.length_drop, h7,
        if_pos (by omega : k - p < 7 - p - 1), List.getElem?_drop]
      congr 1
      omega
    · intro e he
      have hel : e = (l.drop p).getLast hDne := by
        rw [h1, List.getLast?_eq_getLast _ hDne] at he
        exact (Option.some.inj he).symm
      have hfl : (l.filter fun c => c ≠ Cell.X) =
          ((l.take p).filter fun c => c ≠ Cell.X) ++ l.drop p := by
        conv_lhs => rw [← List.take_append_drop p l]
        rw [List.filter_append, List.filter_eq_self.mpr hDall]
      have hfR : ((push_right p l).2.filter fun c => c ≠ Cell.X) =
          ((l.take p).filter fun c => c ≠ Cell.X) ++ (l.drop p).dropLast := by
        rw [h2, List.filter_append, List.filter_cons_of_neg (by simp),
          List.filter_eq_self.mpr
            (fun a ha => hDall a ((List.dropLast_sublist _).subset ha))]
      rw [hel, hfR, hfl, ← Multiset.coe_singleton, Multiset.coe_add]
      rw [List.append_assoc, List.dropLast_append_getLast hDne]

/-- Witness for C1 at the opening row `[W,W,X,X,X,B,B]` with `p = 0`: the
first Empty is at index 2, nothing is ejected and the Empty moves to index
0. -/
theorem c1_witness :
    (push_right 0 [Cell.W, Cell.W, Cell.X, Cell.X, Cell.X, Cell.B, Cell.B]).2.length = 7
    ∧ (push_right 0 [Cell.W, Cell.W, Cell.X, Cell.X, Cell.X, Cell.B, Cell.B]).1 = none
    ∧ (push_right 0 [Cell.W, Cell.W, Cell.X, Cell.X, Cell.X, Cell.B, Cell.B]).2[0]? =
        some Cell.X := by
  obtain ⟨hlen, hfound, -⟩ :=
    c1_push_right_matches_pushLine
      [Cell.W, Cell.W, Cell.X, Cell.X, Cell.X, Cell.B, Cell.B] 0
      (by decide) (by decide)
  obtain ⟨hnone, hatp, -⟩ := hfound 2 (by decide) (by decide) (by decide)
    (by
      intro k hk1 hk2
      interval_cases k <;> decide)
  exact ⟨hlen, hnone, hatp⟩

/-! ### Validator geometry lemmas (for C2) -/

theorem noX_take_iff (row : Row) (h7 : row.length = 7) (n : Nat) :
    Cell.X ∉ row.take n ↔
      ∀ k : Nat, k < 7 → k < n → row.getD k Cell.X ≠ Cell.X := by
  constructor
  · intro hnm k hk7 hkn hXk
    apply hnm
    have hk : k < row.length := by omega
    rw [List.getD_eq_getElem row Cell.X hk] at hXk
    have hsome : (row.take n)[k]? = some Cell.X := by
      rw [List.getElem?_take, if_pos hkn, List.getElem?_eq_getElem hk, hXk]
    exact List.getElem?_mem hsome
  · intro hall hmem
    obtain ⟨k, hk, hkX⟩ := List.getElem_of_mem hmem
    have hlt : k < n ⊓ row.length := by
      have := List.length_take n row
      omega
    have hsome : row[k]? = some Cell.X := by
      have h1 : (row.take n)[k]? = some Cell.X := by
        rw [List.getElem?_eq_getElem hk, hkX]
      rw [List.getElem?_take, if_pos (by omega : k < n)] at h1
      exact h1
    refine hall k (by omega) (by omega) ?_
    rw [List.getD_eq_getElem?_getD, hsome]
    rfl

theorem noX_drop_iff (row : Row) (h7 : row.length = 7) (n : Nat) :
    Cell.X ∉ row.drop n ↔
      ∀ k : Nat, k < 7 → n ≤ k → row.getD k Cell.X ≠ Cell.X := by
  constructor
  · intro hnm k hk7 hkn hXk
    apply hnm
    have hk : k < row.length := by omega
    rw [List.getD_eq_getElem row Cell.X hk] at hXk
    have hsome : (row.drop n)[k - n]? = some Cell.X := by
      rw [List.getElem?_drop, show n + (k - n) = k by omega,
        List.getElem?_eq_getElem hk, hXk]
    exact List.getElem?_mem hsome
  · intro hall hmem
    obtain ⟨j, hj, hjX⟩ := List.getElem_of_mem hmem
    have hjl : n + j < row.length := by
      have := List.length_drop n row
      omega
    have hsome : row[n + j]? = some Cell.X := by
      have h1 : (row.drop n)[j]? = some Cell.X := by
        rw [List.getElem?_eq_getElem hj, hjX]
      rw [List.getElem?_drop] at h1
      exact h1
    refine hall (n + j) (by omega) (by omega) ?_
    rw [List.getD_eq_getElem?_getD, hsome]
    rfl

theorem get_row_getD (g : Game) (r : Int) (k : Nat) :
    (get_row g r).getD k Cell.X = get_marble g (r, (k : Int)) := by
  unfold get_row get_marble
  simp

theorem get_column_getD (g : Game) (cIdx : Int) (k : Nat) :
    (get_column g cIdx).getD k Cell.X = get_marble g ((k : Int), cIdx) := by
  unfold get_column get_marble
  rcases h : g.board[k]? with - | row <;>
    simp [List.getD_eq_getElem?_getD, List.getElem?_map, h]

theorem get_row_length (g : Game) (r : Int) (hr0 : 0 ≤ r) (hr6 : r ≤ 6)
    (hshape : g.board.length = 7 ∧ ∀ row ∈ g.board, row.length = 7) :
    (get_row g r).length = 7 := by
  unfold get_row
  have hb : r.toNat < g.board.length := by omega
  rw [List.getD_eq_getElem g.board [] hb]
  exact hshape.2 _ (List.getElem_mem hb)

theorem get_column_length (g : Game) (cIdx : Int)
    (hshape : g.board.length = 7 ∧ ∀ row ∈ g.board, row.length = 7) :
    (get_column g cIdx).length = 7 := by
  unfold get_column
  rw [List.length_map]
  exact hshape.1

theorem helper_row_eq (g : Game) (r c : Int) (m : Cell) (ei : Int)
    (imm ext : Int × Int) :
    is_valid_push_helper g (r, c) m 1 ei imm ext =
      if m = get_marble g ext ∧
          Cell.X ∉ (if ei < c then (get_row g r).drop c.toNat
                    else (get_row g r).take c.toNat) then
        (some false, g.errors ++ ["You cannot capture your own marble!"])
      else if c = ei then (some true, g.errors)
      else if get_marble g imm = Cell.X then (some true, g.errors)
      else (some false, g.errors ++ ["Cant push from this direction!"]) := by
  unfold is_valid_push_helper coordAt
  norm_num

theorem helper_col_eq (g : Game) (r c : Int) (m : Cell) (ei : Int)
    (imm ext : Int × Int) :
    is_valid_push_helper g (r, c) m 0 ei imm ext =
      if m = get_marble g ext ∧
          Cell.X ∉ (if ei < r then (get_column g c).drop r.toNat
                    else (get_column g c).take r.toNat) then
        (some false, g.errors ++ ["You cannot capture your own marble!"])
      else if r = ei then (some true, g.errors)
      else if get_marble g imm = Cell.X then (some true, g.errors)
      else (some false, g.errors ++ ["Cant push from this direction!"]) := by
  unfold is_valid_push_helper coordAt
  norm_num

theorem is_valid_push_R_spec (g : Game) (r c : Int) (m : Cell)
    (hr0 : 0 ≤ r) (hr6 : r ≤ 6) (hc0 : 0 ≤ c) (hc6 : c ≤ 6)
    (hshape : g.board.length = 7 ∧ ∀ row ∈ g.board, row.length = 7) :
    is_valid_push g (r, c) "R" m =
      if get_marble g (r, 6) = m ∧
          (c = 0 ∨ ∀ k : Nat, k < 7 → c.toNat ≤ k → get_marble g (r, (k : Int)) ≠ Cell.X) then
        (some false, g.errors ++ ["You cannot capture your own marble!"])
      else if c = 0 ∨ get_marble g (r, c - 1) = Cell.X then
        (some true, g.errors)
      else
        (some false, g.errors ++ ["Cant push from this direction!"]) := by
  have hrow7 := get_row_length g r hr0 hr6 hshape
  have hdisp : is_valid_push g (r, c) "R" m
      = is_valid_push_helper g (r, c) m 1 0 (r, c - 1) (r, 6) := by
    unfold is_valid_push
    rw [if_neg (by decide : ¬ ("R" : String) = "L"), if_pos rfl]
  rw [hdisp, helper_row_eq]
  by_cases hcz : c = 0
  · subst hcz
    rw [if_neg (by omega : ¬ (0 : Int) < 0),
      show ((0 : Int).toNat) = 0 from rfl, List.take_zero]
    by_cases hfar : get_marble g (r, 6) = m
    · rw [if_pos ⟨hfar.symm, List.not_mem_nil Cell.X⟩, if_pos ⟨hfar, Or.inl rfl⟩]
    · rw [if_neg (fun h => hfar h.1.symm), if_pos (rfl : (0 : Int) = 0)]
      rw [if_neg (fun h => hfar h.1), if_pos (Or.inl rfl)]
  · rw [if_pos (by omega : (0 : Int) < c)]
    have hbridge : Cell.X ∉ (get_row g r).drop c.toNat ↔
        ∀ k : Nat, k < 7 → c.toNat ≤ k → get_marble g (r, (k : Int)) ≠ Cell.X := by
      rw [noX_drop_iff _ hrow7]
      simp only [get_row_getD]
    by_cases hA : get_marble g (r, 6) = m ∧
        ∀ k : Nat, k < 7 → c.toNat ≤ k → get_marble g (r, (k : Int)) ≠ Cell.X
    · rw [if_pos ⟨hA.1.symm, hbridge.mpr hA.2⟩, if_pos ⟨hA.1, Or.inr hA.2⟩]
    · rw [if_neg (fun h => hA ⟨h.1.symm, hbridge.mp h.2⟩), if_neg hcz]
      by_cases hI : get_marble g (r, c - 1) = Cell.X
      · rw [if_pos hI]
        rw [if_neg (fun h => hA ⟨h.1, h.2.elim (fun h0 => absurd h0 hcz) id⟩),
          if_pos (Or.inr hI)]
      · rw [if_neg hI]
        rw [if_neg (fun h => hA ⟨h.1, h.2.elim (fun h0 => absurd h0 hcz) id⟩),
          if_neg (fun h => h.elim hcz hI)]

theorem is_valid_push_L_spec (g : Game) (r c : Int) (m : Cell)
    (hr0 : 0 ≤ r) (hr6 : r ≤ 6) (hc0 : 0 ≤ c) (hc6 : c ≤ 6)
    (hshape : g.board.length = 7 ∧ ∀ row ∈ g.board, row.length = 7) :
    is_valid_push g (r, c) "L" m =
      if get_marble g (r, 0) = m ∧
          (∀ k : Nat, k < 7 → k < c.toNat → get_marble g (r, (k : Int)) ≠ Cell.X) then
        (some false, g.errors ++ ["You cannot capture your own marble!"])
      else if c = 6 ∨ get_marble g (r, c + 1) = Cell.X then
        (some true, g.errors)
      else
        (some false, g.errors ++ ["Cant push from this direction!"]) := by
  have hrow7 := get_row_length g r hr0 hr6 hshape
  have hdisp : is_valid_push g (r, c) "L" m
      = is_valid_push_helper g (r, c) m 1 6 (r, c + 1) (r, 0) := by
    unfold is_valid_push
    rw [if_pos rfl]
  rw [hdisp, helper_row_eq, if_neg (by omega : ¬ (6 : Int) < c)]
  have hbridge : Cell.X ∉ (get_row g r).take c.toNat ↔
      ∀ k : Nat, k < 7 → k < c.toNat → get_marble g (r, (k : Int)) ≠ Cell.X := by
    rw [noX_take_iff _ hrow7]
    simp only [get_row_getD]
  by_cases hA : get_marble g (r, 0) = m ∧
      ∀ k : Nat, k < 7 → k < c.toNat → get_marble g (r, (k : Int)) ≠ Cell.X
  · rw [if_pos ⟨hA.1.symm, hbridge.mpr hA.2⟩, if_pos hA]
  · rw [if_neg (fun h => hA ⟨h.1.symm, hbridge.mp h.2⟩)]
    by_cases hc6 : c = 6
    · rw [if_pos hc6, if_neg hA, if_pos (Or.inl hc6)]
    · rw [if_neg hc6]
      by_cases hI : get_marble g (r, c + 1) = Cell.X
      · rw [if_pos hI, if_neg hA, if_pos (Or.inr hI)]
      · rw [if_neg hI, if_neg hA, if_neg (fun h => h.elim hc6 hI)]

theorem is_valid_push_B_spec (g : Game) (r c : Int) (m : Cell)
    (hr0 : 0 ≤ r) (hr6 : r ≤ 6) (hc0 : 0 ≤ c) (hc6 : c ≤ 6)
    (hshape : g.board.length = 7 ∧ ∀ row ∈ g.board, row.length = 7) :
    is_valid_push g (r, c) "B" m =
      if get_marble g (6, c) = m ∧
          (r = 0 ∨ ∀ k : Nat, k < 7 → r.toNat ≤ k → get_marble g ((k : Int), c) ≠ Cell.X) then
        (some false, g.errors ++ ["You cannot capture your own marble!"])
      else if r = 0 ∨ get_marble g (r - 1, c) = Cell.X then
        (some true, g.errors)
      else
        (some false, g.errors ++ ["Cant push from this direction!"]) := by
  have hcol7 := get_column_length g c hshape
  have hdisp : is_valid_push g (r, c) "B" m
      = is_valid_push_helper g (r, c) m 0 0 (r - 1, c) (6, c) := by
    unfold is_valid_push
    rw [if_neg (by decide : ¬ ("B" : String) = "L"),
      if_neg (by decide : ¬ ("B" : String) = "R"), if_pos rfl]
  rw [hdisp, helper_col_eq]
  by_cases hrz : r = 0
  · subst hrz
    rw [if_neg (by omega : ¬ (0 : Int) < 0),
      show ((0 : Int).toNat) = 0 from rfl, List.take_zero]
    by_cases hfar : get_marble g (6, c) = m
    · rw [if_pos ⟨hfar.symm, List.not_mem_nil Cell.X⟩, if_pos ⟨hfar, Or.inl rfl⟩]
    · rw [if_neg (fun h => hfar h.1.symm), if_pos (rfl : (0 : Int) = 0)]
      rw [if_neg (fun h => hfar h.1), if_pos (Or.inl rfl)]
  · rw [if_pos (by omega : (0 : Int) < r)]
    have hbridge : Cell.X ∉ (get_column g c).drop r.toNat ↔
        ∀ k : Nat, k < 7 → r.toNat ≤ k → get_marble g ((k : Int), c) ≠ Cell.X := by
      rw [noX_drop_iff _ hcol7]
      simp only [get_column_getD]
    by_cases hA : get_marble g (6, c) = m ∧
        ∀ k : Nat, k < 7 → r.toNat ≤ k → get_marble g ((k : Int), c) ≠ Cell.X
    · rw [if_pos ⟨hA.1.symm, hbridge.mpr hA.2⟩, if_pos ⟨hA.1, Or.inr hA.2⟩]
    · rw [if_neg (fun h => hA ⟨h.1.symm, hbridge.mp h.2⟩), if_neg hrz]
      by_cases hI : get_marble g (r - 1, c) = Cell.X
      · rw [if_pos hI]
        rw [if_neg (fun h => hA ⟨h.1, h.2.elim (fun h0 => absurd h0 hrz) id⟩),
          if_pos (Or.inr hI)]
      · rw [if_neg hI]
        rw [if_neg (fun h => hA ⟨h.1, h.2.elim (fun h0 => absurd h0 hrz) id⟩),
          if_neg (fun h => h.elim hrz hI)]

theorem is_valid_push_F_spec (g : Game) (r c : Int) (m : Cell)
    (hr0 : 0 ≤ r) (hr6 : r ≤ 6) (hc0 : 0 ≤ c) (hc6 : c ≤ 6)
    (hshape : g.board.length = 7 ∧ ∀ row ∈ g.board, row.length = 7) :
    is_valid_push g (r, c) "F" m =
      if get_marble g (0, c) = m ∧
          (∀ k : Nat, k < 7 → k < r.toNat → get_marble g ((k : Int), c) ≠ Cell.X) then
        (some false, g.errors ++ ["You cannot capture your own marble!"])
      else if r = 6 ∨ get_marble g (r + 1, c) = Cell.X then
        (some true, g.errors)
      else
        (some false, g.errors ++ ["Cant push from this direction!"]) := by
  have hcol7 := get_column_length g c hshape
  have hdisp : is_valid_push g (r, c) "F" m
      = is_valid_push_helper g (r, c) m 0 6 (r + 1, c) (0, c) := by
    unfold is_valid_push
    rw [if_neg (by decide : ¬ ("F" : String) = "L"),
      if_neg (by decide : ¬ ("F" : String) = "R"),
      if_neg (by decide : ¬ ("F" : String) = "B"), if_pos rfl]
  rw [hdisp, helper_col_eq, if_neg (by omega : ¬ (6 : Int) < r)]
  have hbridge : Cell.X ∉ (get_column g c).take r.toNat ↔
      ∀ k : Nat, k < 7 → k < r.toNat → get_marble g ((k : Int), c) ≠ Cell.X := by
    rw [noX_take_iff _ hcol7]
    simp only [get_column_getD]
  by_cases hA : get_marble g (0, c) = m ∧
      ∀ k : Nat, k < 7 → k < r.toNat → get_marble g ((k : Int), c) ≠ Cell.X
  · rw [if_pos ⟨hA.1.symm, hbridge.mpr hA.2⟩, if_pos hA]
  · rw [if_neg (fun h => hA ⟨h.1.symm, hbridge.mp h.2⟩)]
    by_cases hr6e : r = 6
    · rw [if_pos hr6e, if_neg hA, if_pos (Or.inl hr6e)]
    · rw [if_neg hr6e]
      by_cases hI : get_marble g (r + 1, c) = Cell.X
      · rw [if_pos hI, if_neg hA, if_pos (Or.inr hI)]
      · rw [if_neg hI, if_neg hA, if_neg (fun h => h.elim hr6e hI)]

/-- C2 counterexample: in `game_edge_push` the white player pushes right from
`(0,0)`.  The far-end cell `(0,6)` is white and the segment from the
coordinate to the far end contains Empty cells (e.g. `(0,1)`), so by the claim
the push must not fail with the own-marble reason — yet the code rejects it
with exactly that reason, because for a rightward push from column 0 the
examined slice `row[:0]` is empty. -/
theorem c2_counterexample :
    is_valid_push game_edge_push ((0 : Int), (0 : Int)) "R" Cell.W
        = (some false, ["You cannot capture your own marble!"])
    ∧ get_marble game_edge_push (0, 0) = Cell.W
    ∧ get_marble game_edge_push (0, 6) = Cell.W
    ∧ get_marble game_edge_push (0, 1) = Cell.X := by
  refine ⟨?_, by decide, by decide, by decide⟩
  decide

/-- C2 (amended): for a move that passed validator checks 1-6 (in-range
coordinate on a 7-by-7 board whose cell holds the mover's colour `m`), push
feasibility is decided as the claim states for directions `L` and `F` at
every position and for `R` and `B` away from the originating edge; but for a
push `R` from column 0 or a push `B` from row 0 the examined segment is
empty, so there the own-marble rejection fires exactly when the far-end cell
equals the mover's colour, even when Empty cells lie strictly between.
Otherwise feasibility fails with the blocked reason exactly when the
coordinate is not at the originating extreme and the cell behind it is not
Empty, and succeeds in every remaining case. -/
theorem c2_push_feasibility_characterization (g : Game) (r c : Int) (m : Cell)
    (hr0 : 0 ≤ r) (hr6 : r ≤ 6) (hc0 : 0 ≤ c) (hc6 : c ≤ 6)
    (hshape : g.board.length = 7 ∧ ∀ row ∈ g.board, row.length = 7)
    (hown : get_marble g (r, c) = m) :
    (is_valid_push g (r, c) "R" m =
      if get_marble g (r, 6) = m ∧
          (c = 0 ∨ ∀ k : Nat, k < 7 → c.toNat ≤ k → get_marble g (r, (k : Int)) ≠ Cell.X) then
        (some false, g.errors ++ ["You cannot capture your own marble!"])
      else if c = 0 ∨ get_marble g (r, c - 1) = Cell.X then
        (some true, g.errors)
      else
        (some false, g.errors ++ ["Cant push from this direction!"]))
    ∧ (is_valid_push g (r, c) "L" m =
      if get_marble g (r, 0) = m ∧
          (∀ k : Nat, k < 7 → k < c.toNat → get_marble g (r, (k : Int)) ≠ Cell.X) then
        (some false, g.errors ++ ["You cannot capture your own marble!"])
      else if c = 6 ∨ get_marble g (r, c + 1) = Cell.X then
        (some true, g.errors)
      else
        (some false, g.errors ++ ["Cant push from this direction!"]))
    ∧ (is_valid_push g (r, c) "B" m =
      if get_marble g (6, c) = m ∧
          (r = 0 ∨ ∀ k : Nat, k < 7 → r.toNat ≤ k → get_marble g ((k : Int), c) ≠ Cell.X) then
        (some false, g.errors ++ ["You cannot capture your own marble!"])
      else if r = 0 ∨ get_marble g (r - 1, c) = Cell.X then
        (some true, g.errors)
      else
        (some false, g.errors ++ ["Cant push from this direction!"]))
    ∧ (is_valid_push g (r, c) "F" m =
      if get_marble g (0, c) = m ∧
          (∀ k : Nat, k < 7 → k < r.toNat → get_marble g ((k : Int), c) ≠ Cell.X) then
        (some false, g.errors ++ ["You cannot capture your own marble!"])
      else if r = 6 ∨ get_marble g (r + 1, c) = Cell.X then
        (some true, g.errors)
      else
        (some false, g.errors ++ ["Cant push from this direction!"])) :=
  ⟨is_valid_push_R_spec g r c m hr0 hr6 hc0 hc6 hshape,
   is_valid_push_L_spec g r c m hr0 hr6 hc0 hc6 hshape,
   is_valid_push_B_spec g r c m hr0 hr6 hc0 hc6 hshape,
   is_valid_push_F_spec g r c m hr0 hr6 hc0 hc6 hshape⟩

/-- Witness for the amended C2 at the opening position: white pushing right
from `(0,0)` on the fresh board is feasible. -/
theorem c2_witness :
    is_valid_push demo_game ((0 : Int), (0 : Int)) "R" Cell.W
      = (some true, []) := by
  have h := (c2_push_feasibility_characterization demo_game 0 0 Cell.W
    (by decide) (by decide) (by decide) (by decide) (by decide) (by decide)).1
  rw [h]
  decide

/-! ### Outcome inventories for the validator -/

theorem helper_cases (g : Game) (coords : Int × Int) (m : Cell) (ci : Nat)
    (ei : Int) (imm ext : Int × Int) :
    is_valid_push_helper g coords m ci ei imm ext
        = (some false, g.errors ++ ["You cannot capture your own marble!"])
    ∨ is_valid_push_helper g coords m ci ei imm ext = (some true, g.errors)
    ∨ is_valid_push_helper g coords m ci ei imm ext
        = (some false, g.errors ++ ["Cant push from this direction!"]) := by
  simp only [is_valid_push_helper]
  repeat' split
  all_goals simp

theorem is_valid_push_cases (g : Game) (coords : Int × Int) (d : String) (m : Cell) :
    is_valid_push g coords d m = (none, g.errors)
    ∨ is_valid_push g coords d m
        = (some false, g.errors ++ ["You cannot capture your own marble!"])
    ∨ is_valid_push g coords d m = (some true, g.errors)
    ∨ is_valid_push g coords d m
        = (some false, g.errors ++ ["Cant push from this direction!"]) := by
  unfold is_valid_push
  split
  · rcases helper_cases g coords m 1 6 _ _ with h | h | h <;> rw [h] <;> simp
  · split
    · rcases helper_cases g coords m 1 0 _ _ with h | h | h <;> rw [h] <;> simp
    · split
      · rcases helper_cases g coords m 0 0 _ _ with h | h | h <;> rw [h] <;> simp
      · split
        · rcases helper_cases g coords m 0 6 _ _ with h | h | h <;> rw [h] <;> simp
        · left
          rfl

theorem is_valid_push_true_errors (g : Game) (coords : Int × Int) (d : String)
    (m : Cell) (h : (is_valid_push g coords d m).1 = some true) :
    (is_valid_push g coords d m).2 = g.errors := by
  rcases is_valid_push_cases g coords d m with hc | hc | hc | hc <;>
    rw [hc] at h ⊢ <;> simp_all

theorem move_is_valid_true_errors (g : Game) (n : String) (coords : Int × Int)
    (d : String) (errs : List String)
    (h : move_is_valid g n coords d = some (true, errs)) : errs = g.errors := by
  unfold move_is_valid at h
  repeat' split at h
  all_goals try simp_all
  split at h
  · rename_i hres
    rw [is_valid_push_true_errors g coords d _ hres] at h
    simp_all
  · split at h <;> simp_all

theorem check_win_preserves (g : Game) :
    (check_win_conditions g).board = g.board
    ∧ (check_win_conditions g).history = g.history
    ∧ (check_win_conditions g).turn = g.turn
    ∧ (check_win_conditions g).pa = g.pa
    ∧ (check_win_conditions g).pb = g.pb
    ∧ (check_win_conditions g).errors = g.errors := by
  unfold check_win_conditions
  split <;> simp

/-- Reduction of `make_move` in the circular-rejection case. -/
theorem make_move_circular_eq (g : Game) (n : String) (coords : Int × Int)
    (d : String) (errs : List String)
    (hval : move_is_valid (check_win_conditions g) n coords d = some (true, errs))
    (hlen : 1 < (check_win_conditions g).history.length)
    (hsame : is_same_board ((check_win_conditions g).history.getD
        ((check_win_conditions g).history.length - 2) [])
        (apply_push (check_win_conditions g) coords d).2 = true) :
    make_move g n coords d =
      (MoveResult.ok false,
        { check_win_conditions g with errors := errs ++ ["Cannot make a circular move!"] }) := by
  simp only [make_move]
  rw [hval]
  simp only []
  rw [if_pos ⟨hlen, hsame⟩]

/-- C3: for a `make_move` call that passes validation, if at least two
snapshots exist in the board history and the pushed copy is cell-for-cell
identical (by `_is_same_board`) to the snapshot from two moves ago, the call
returns False, documents the reason `Cannot make a circular move!`, and
commits nothing: board, history, both captured collections and the turn
pointer are unchanged. -/
theorem c3_circular_move_rejected (g : Game) (n : String) (coords : Int × Int)
    (d : String) (errs : List String)
    (hval : move_is_valid (check_win_conditions g) n coords d = some (true, errs))
    (hlen : 1 < (check_win_conditions g).history.length)
    (hsame : is_same_board ((check_win_conditions g).history.getD
        ((check_win_conditions g).history.length - 2) [])
        (apply_push (check_win_conditions g) coords d).2 = true) :
    (make_move g n coords d).1 = MoveResult.ok false
    ∧ (make_move g n coords d).2.board = g.board
    ∧ (make_move g n coords d).2.history = g.history
    ∧ (make_move g n coords d).2.pa.captured = g.pa.captured
    ∧ (make_move g n coords d).2.pb.captured = g.pb.captured
    ∧ (make_move g n coords d).2.turn = g.turn
    ∧ (make_move g n coords d).2.errors = g.errors ++ ["Cannot make a circular move!"] := by
  have heq := make_move_circular_eq g n coords d errs hval hlen hsame
  have herrs : errs = (check_win_conditions g).errors :=
    move_is_valid_true_errors _ _ _ _ _ hval
  obtain ⟨hb, hh, ht, hpa, hpb, he⟩ := check_win_preserves g
  rw [heq]
  refine ⟨rfl, ?_, ?_, ?_, ?_, ?_, ?_⟩ <;>
    simp [hb, hh, ht, hpa, hpb, he, herrs]

/-- Witness for C3: in `game_two_snapshots` the valid push `A, (0,0), R`
recreates the snapshot from two moves ago and is rejected as circular. -/
theorem c3_witness :
    (make_move game_two_snapshots "A" ((0 : Int), (0 : Int)) "R").1 = MoveResult.ok false
    ∧ (make_move game_two_snapshots "A" ((0 : Int), (0 : Int)) "R").2.errors
        = ["Cannot make a circular move!"] := by
  obtain ⟨h1, -, -, -, -, -, h7⟩ :=
    c3_circular_move_rejected game_two_snapshots "A" (0, 0) "R" []
      (by decide) (by decide) (by decide)
  exact ⟨h1, by simpa using h7⟩

/-- C4 counterexample: from the initial layout, after the committed push
`A, (0,0), R`, the push `A, (0,2), L` would restore the initial board
cell-for-cell, yet the attempt is NOT rejected with the circular-move
reason: it returns False with the `Not your turn` reason (the anti-repeat
check is skipped while the history holds fewer than two snapshots, and no
board-restoring second move is available to the opponent). -/
theorem c4_counterexample :
    (make_move demo_game "A" ((0 : Int), (0 : Int)) "R").1 = MoveResult.ok true
    ∧ (apply_push demo_after_first ((0 : Int), (2 : Int)) "L").2 = demo_game.board
    ∧ (make_move demo_after_first "A" ((0 : Int), (2 : Int)) "L").1 = MoveResult.ok false
    ∧ (make_move demo_after_first "A" ((0 : Int), (2 : Int)) "L").2.errors.getLast?
        = some "Not your turn. Current turn: B"
    ∧ (make_move demo_after_first "A" ((0 : Int), (2 : Int)) "L").2.errors.getLast?
        ≠ some "Cannot make a circular move!" :=
  ⟨by decide, by decide, by decide, by decide, by decide⟩

/-- C4 (amended): the anti-repetition check only activates once at least two
snapshots exist in the board history.  With at most one snapshot — in
particular immediately after the first committed move — every call that
passes validation commits and returns True, so a second move recreating the
initial board is not rejected as circular; an immediate reverse-push
attempted by the player who just moved is rejected with the `Not your turn`
reason instead. -/
theorem c4_no_circular_rejection_before_two_snapshots (g : Game) (n : String)
    (coords : Int × Int) (d : String) (errs : List String)
    (hval : move_is_valid (check_win_conditions g) n coords d = some (true, errs))
    (hlen : (check_win_conditions g).history.length ≤ 1) :
    (make_move g n coords d).1 = MoveResult.ok true := by
  have hh : ({ check_win_conditions g with errors := errs } : Game).history.length ≤ 1 :=
    hlen
  simp only [make_move]
  rw [hval]
  simp only []
  rw [if_neg (fun hcon => absurd hcon.1 (by omega))]

/-- Witness for the amended C4: the opening push from the fresh game passes
validation with an empty history and commits. -/
theorem c4_witness :
    (make_move demo_game "A" ((0 : Int), (0 : Int)) "R").1 = MoveResult.ok true :=
  c4_no_circular_rejection_before_two_snapshots demo_game "A" (0, 0) "R" []
    (by decide) (by decide)

/-! ### Shape lemmas for `make_move` -/

theorem make_move_invalid_eq (g : Game) (n : String) (coords : Int × Int)
    (d : String) (errs : List String)
    (hval : move_is_valid (check_win_conditions g) n coords d = some (false, errs)) :
    make_move g n coords d
      = (MoveResult.ok false, { check_win_conditions g with errors := errs }) := by
  simp only [make_move]
  rw [hval]

theorem make_move_exn_eq (g : Game) (n : String) (coords : Int × Int) (d : String)
    (hval : move_is_valid (check_win_conditions g) n coords d = none) :
    make_move g n coords d = (MoveResult.exn, check_win_conditions g) := by
  simp only [make_move]
  rw [hval]

theorem make_move_commit_parts (g : Game) (n : String) (coords : Int × Int)
    (d : String) (errs : List String)
    (hval : move_is_valid (check_win_conditions g) n coords d = some (true, errs))
    (hnc : ¬ ((check_win_conditions g).history.length > 1 ∧
        is_same_board ((check_win_conditions g).history.getD
          ((check_win_conditions g).history.length - 2) [])
          (apply_push (check_win_conditions g) coords d).2 = true)) :
    (make_move g n coords d).1 = MoveResult.ok true
    ∧ (make_move g n coords d).2.board = (apply_push (check_win_conditions g) coords d).2
    ∧ (make_move g n coords d).2.history
        = g.history ++ [(apply_push (check_win_conditions g) coords d).2]
    ∧ (make_move g n coords d).2.turn
        = some (if get_player g n = Pid.a then Pid.b else Pid.a)
    ∧ (make_move g n coords d).2.winner = (check_win_conditions g).winner
    ∧ (make_move g n coords d).2.errors = g.errors
    ∧ ((apply_push (check_win_conditions g) coords d).1 = none →
        (make_move g n coords d).2.pa = g.pa ∧ (make_move g n coords d).2.pb = g.pb)
    ∧ (∀ m, (apply_push (check_win_conditions g) coords d).1 = some m →
        (make_move g n coords d).2.pa
            = (if get_player g n = Pid.a then
                { g.pa with captured := g.pa.captured ++ [m] } else g.pa)
        ∧ (make_move g n coords d).2.pb
            = (if get_player g n = Pid.b then
                { g.pb with captured := g.pb.captured ++ [m] } else g.pb)) := by
  obtain ⟨hb, hh, ht, hpa, hpb, he⟩ := check_win_preserves g
  have herrs : errs = g.errors :=
    (move_is_valid_true_errors _ _ _ _ _ hval).trans he
  have hgp : get_player
      { board := (check_win_conditions g).board
        history := (check_win_conditions g).history
        turn := (check_win_conditions g).turn
        winner := (check_win_conditions g).winner
        pa := (check_win_conditions g).pa
        pb := (check_win_conditions g).pb
        errors := errs } n
      = get_player g n := by
    unfold get_player
    rw [show ({ board := (check_win_conditions g).board
                history := (check_win_conditions g).history
                turn := (check_win_conditions g).turn
                winner := (check_win_conditions g).winner
                pa := (check_win_conditions g).pa
                pb := (check_win_conditions g).pb
                errors := errs } : Game).pb
        = (check_win_conditions g).pb from rfl, hpb]
  have hnc2 : ¬ ((check_win_conditions g).history.length > 1 ∧
      is_same_board ((check_win_conditions g).history.getD
        ((check_win_conditions g).history.length - 2) [])
        (apply_push
          { board := (check_win_conditions g).board
            history := (check_win_conditions g).history
            turn := (check_win_conditions g).turn
            winner := (check_win_conditions g).winner
            pa := (check_win_conditions g).pa
            pb := (check_win_conditions g).pb
            errors := errs } coords d).2 = true) :=
    hnc
  simp only [make_move]
  rw [hval]
  simp only []
  rw [if_neg hnc2]
  rw [show apply_push
      { board := (check_win_conditions g).board
        history := (check_win_conditions g).history
        turn := (check_win_conditions g).turn
        winner := (check_win_conditions g).winner
        pa := (check_win_conditions g).pa
        pb := (check_win_conditions g).pb
        errors := errs } coords d
      = apply_push (check_win_conditions g) coords d from rfl]
  cases hres : (apply_push (check_win_conditions g) coords d).1 with
  | none =>
    refine ⟨rfl, rfl, ?_, ?_, ?_, ?_, fun _ => ⟨?_, ?_⟩, ?_⟩
    · simp [hh]
    · simp [hgp]
    · simp
    · simp [herrs]
    · simp [hpa]
    · simp [hpb]
    · intro m hm
      exact Option.noConfusion hm
  | some m =>
    refine ⟨rfl, rfl, ?_, ?_, ?_, ?_, ?_, ?_⟩
    · simp only [capture_marble, hgp]
      cases hp : get_player g n <;> simp [hh]
    · simp [hgp]
    · simp only [capture_marble, hgp]
      cases hp : get_player g n <;> simp
    · simp only [capture_marble, hgp]
      cases hp : get_player g n <;> simp [herrs]
    · intro hc
      exact Option.noConfusion hc
    · intro m2 hm2
      have hm : m2 = m := (Option.some.inj hm2).symm
      subst hm
      constructor
      · simp only [capture_marble, hgp]
        cases hp : get_player g n <;> simp [hp, hpa]
      · simp only [capture_marble, hgp]
        cases hp : get_player g n <;> simp [hp, hpb]

/-- C8 counterexample: in `game_pending_win` player A already holds seven red
marbles but the winner is not yet set.  The next `make_move` call returns
False, yet it changes the game state: the winner goes from unset to player
A — contradicting the claim that every False-returning call leaves the
winner exactly as it was. -/
theorem c8_counterexample :
    (make_move game_pending_win "A" ((0 : Int), (0 : Int)) "R").1 = MoveResult.ok false
    ∧ game_pending_win.winner = none
    ∧ (make_move game_pending_win "A" ((0 : Int), (0 : Int)) "R").2.winner = some Pid.a
    ∧ (make_move game_pending_win "A" ((0 : Int), (0 : Int)) "R").2.errors
        = ["A player has already won: A"] :=
  ⟨by decide, by decide, by decide, by decide⟩

/-- C8 (amended): every `make_move` call that returns False leaves the live
board, the board history, both players (including their captured
collections) and the turn pointer unchanged; the winner, however, is not
left unchanged but equals the winner after the initial win evaluation — so a
rejected call may still set the winner when a pending win condition existed
at call start.  Only the error channel otherwise changes. -/
theorem c8_rejected_move_preserves_state (g : Game) (n : String)
    (coords : Int × Int) (d : String)
    (h : (make_move g n coords d).1 = MoveResult.ok false) :
    (make_move g n coords d).2.board = g.board
    ∧ (make_move g n coords d).2.history = g.history
    ∧ (make_move g n coords d).2.pa = g.pa
    ∧ (make_move g n coords d).2.pb = g.pb
    ∧ (make_move g n coords d).2.turn = g.turn
    ∧ (make_move g n coords d).2.winner = (check_win_conditions g).winner := by
  obtain ⟨hb, hh, ht, hpa, hpb, he⟩ := check_win_preserves g
  cases hmv : move_is_valid (check_win_conditions g) n coords d with
  | none =>
    rw [make_move_exn_eq g n coords d hmv] at h
    exact absurd h (by simp)
  | some pr =>
    obtain ⟨bv, errs⟩ := pr
    cases bv with
    | false =>
      rw [make_move_invalid_eq g n coords d errs hmv]
      exact ⟨by simp [hb], by simp [hh], by simp [hpa], by simp [hpb],
        by simp [ht], by simp⟩
    | true =>
      by_cases hcirc : ((check_win_conditions g).history.length > 1 ∧
          is_same_board ((check_win_conditions g).history.getD
            ((check_win_conditions g).history.length - 2) [])
            (apply_push (check_win_conditions g) coords d).2 = true)
      · rw [make_move_circular_eq g n coords d errs hmv hcirc.1 hcirc.2]
        exact ⟨by simp [hb], by simp [hh], by simp [hpa], by simp [hpb],
          by simp [ht], by simp⟩
      · obtain ⟨h1, -⟩ := make_move_commit_parts g n coords d errs hmv hcirc
        rw [h1] at h
        exact absurd h (by simp)

/-- Witness for the amended C8: a call rejected for an invalid direction
leaves board, turn and winner untouched. -/
theorem c8_witness :
    (make_move demo_game "A" ((0 : Int), (0 : Int)) "Z").2.board = demo_game.board
    ∧ (make_move demo_game "A" ((0 : Int), (0 : Int)) "Z").2.turn = demo_game.turn
    ∧ (make_move demo_game "A" ((0 : Int), (0 : Int)) "Z").2.winner = none := by
  obtain ⟨hb2, -, -, -, ht2, hw⟩ :=
    c8_rejected_move_preserves_state demo_game "A" (0, 0) "Z" (by decide)
  refine ⟨hb2, ht2, ?_⟩
  rw [hw]
  decide

/-- C7: the direction check `direction not in "FBLR"` is a Python substring
test, so the two-character direction `"FB"` — which is none of the four valid
directions — passes the first validator check (no direction error is
documented), and on a fresh game the call then reaches the push-validation
fall-through and raises `IndexError` from `pop` on the empty error stack:
an exception escapes `make_move`, contradicting the claim that every
non-`L`/`R`/`F`/`B` direction is rejected at check 1 and that no exception
propagates. -/
theorem c7_substring_direction_raises :
    py_in_str "FB" "FBLR" = true
    ∧ ("FB" : String) ≠ "F" ∧ ("FB" : String) ≠ "B"
    ∧ ("FB" : String) ≠ "L" ∧ ("FB" : String) ≠ "R"
    ∧ (make_move demo_game "A" ((0 : Int), (0 : Int)) "FB").1 = MoveResult.exn
    ∧ (make_move demo_game "A" ((0 : Int), (0 : Int)) "FB").2.errors = [] :=
  ⟨by decide, by decide, by decide, by decide, by decide, by decide, by decide⟩

/-- History length changes by one exactly on committed moves. -/
theorem make_move_history_length (g : Game) (n : String) (coords : Int × Int)
    (d : String) :
    (make_move g n coords d).2.history.length
      = g.history.length
        + (if (make_move g n coords d).1 = MoveResult.ok true then 1 else 0) := by
  obtain ⟨hb, hh, ht, hpa, hpb, he⟩ := check_win_preserves g
  cases hmv : move_is_valid (check_win_conditions g) n coords d with
  | none =>
    rw [make_move_exn_eq g n coords d hmv]
    simp [hh]
  | some pr =>
    obtain ⟨bv, errs⟩ := pr
    cases bv with
    | false =>
      rw [make_move_invalid_eq g n coords d errs hmv]
      simp [hh]
    | true =>
      by_cases hcirc : ((check_win_conditions g).history.length > 1 ∧
          is_same_board ((check_win_conditions g).history.getD
            ((check_win_conditions g).history.length - 2) [])
            (apply_push (check_win_conditions g) coords d).2 = true)
      · rw [make_move_circular_eq g n coords d errs hmv hcirc.1 hcirc.2]
        simp [hh]
      · obtain ⟨h1, -, hhist, -⟩ :=
          make_move_commit_parts g n coords d errs hmv hcirc
        rw [h1, hhist]
        simp

theorem run_moves_history_length (reqs : List Req) (g : Game) :
    (run_moves g reqs).history.length = g.history.length + count_commits g reqs := by
  induction reqs generalizing g with
  | nil => simp [run_moves, count_commits]
  | cons r rs ih =>
    simp only [run_moves, count_commits]
    rw [ih, make_move_history_length g r.name r.coords r.dir]
    omega

/-- C9: every `make_move` call that returns True commits exactly one move:
the live board becomes the pushed copy, that copy is appended as exactly one
new snapshot to the history (cell-for-cell equal to the new live board), the
ejected marble (when one exists) is appended to the mover's captured
collection — with both players untouched when nothing is ejected — and the
turn advances to the other player; consequently after any request sequence
from construction the history length equals the number of calls that
returned True. -/
theorem c9_commit_effects :
    (∀ (g : Game) (n : String) (coords : Int × Int) (d : String),
      (make_move g n coords d).1 = MoveResult.ok true →
      (make_move g n coords d).2.board = (apply_push (check_win_conditions g) coords d).2
      ∧ (make_move g n coords d).2.history
          = g.history ++ [(make_move g n coords d).2.board]
      ∧ (make_move g n coords d).2.history.length = g.history.length + 1
      ∧ (make_move g n coords d).2.turn
          = some (if get_player g n = Pid.a then Pid.b else Pid.a)
      ∧ ((apply_push (check_win_conditions g) coords d).1 = none →
          (make_move g n coords d).2.pa = g.pa ∧ (make_move g n coords d).2.pb = g.pb)
      ∧ (∀ m, (apply_push (check_win_conditions g) coords d).1 = some m →
          (make_move g n coords d).2.pa
              = (if get_player g n = Pid.a then
                  { g.pa with captured := g.pa.captured ++ [m] } else g.pa)
          ∧ (make_move g n coords d).2.pb
              = (if get_player g n = Pid.b then
                  { g.pb with captured := g.pb.captured ++ [m] } else g.pb)))
    ∧ (∀ (player_a_info player_b_info : String × Cell) (reqs : List Req),
        (run_moves (init_game player_a_info player_b_info) reqs).history.length
          = count_commits (init_game player_a_info player_b_info) reqs) := by
  constructor
  · intro g n coords d h
    cases hmv : move_is_valid (check_win_conditions g) n coords d with
    | none =>
      rw [make_move_exn_eq g n coords d hmv] at h
      exact absurd h (by simp)
    | some pr =>
      obtain ⟨bv, errs⟩ := pr
      cases bv with
      | false =>
        rw [make_move_invalid_eq g n coords d errs hmv] at h
        exact absurd h (by simp)
      | true =>
        by_cases hcirc : ((check_win_conditions g).history.length > 1 ∧
            is_same_board ((check_win_conditions g).history.getD
              ((check_win_conditions g).history.length - 2) [])
              (apply_push (check_win_conditions g) coords d).2 = true)
        · rw [make_move_circular_eq g n coords d errs hmv hcirc.1 hcirc.2] at h
          exact absurd h (by simp)
        · obtain ⟨h1, hboard, hhist, hturn, -, -, hnonecap, hsomecap⟩ :=
            make_move_commit_parts g n coords d errs hmv hcirc
          refine ⟨hboard, ?_, ?_, hturn, hnonecap, hsomecap⟩
          · rw [hboard, hhist]
          · rw [hhist]
            simp
  · intro ainfo binfo reqs
    rw [run_moves_history_length reqs (init_game ainfo binfo)]
    simp [init_game]

/-- Witness for C9: the opening commit produces a history of length one. -/
theorem c9_witness :
    (make_move demo_game "A" ((0 : Int), (0 : Int)) "R").2.history.length = 1 := by
  obtain ⟨-, -, hlen, -⟩ :=
    c9_commit_effects.1 demo_game "A" (0, 0) "R" (by decide)
  rw [hlen]
  decide

/-! ### Terminal-state lemmas (for C5) -/

theorem check_win_sets_winner (g : Game) (pid : Pid) (hn : g.pa.name ≠ g.pb.name)
    (hqual : wins_now (playerOf g pid) = true)
    (hfirst : pid = Pid.b → wins_now (playerOf g Pid.a) = false) :
    check_win_conditions g = { g with winner := some pid } := by
  unfold check_win_conditions
  have hitems : players_items g = [Pid.a, Pid.b] := by
    unfold players_items
    rw [if_neg hn]
  rw [hitems]
  cases pid with
  | a =>
    rw [@List.find?_cons_of_pos Pid (fun pid => wins_now (playerOf g pid))
      Pid.a [Pid.b] hqual]
  | b =>
    rw [@List.find?_cons_of_neg Pid (fun pid => wins_now (playerOf g pid))
        Pid.a [Pid.b] (by simpa using hfirst rfl),
      @List.find?_cons_of_pos Pid (fun pid => wins_now (playerOf g pid))
        Pid.b [] hqual]

theorem move_is_valid_already_won_msg (g1 : Game) (n : String)
    (coords : Int × Int) (d : String)
    (hd : py_in_str d "FBLR" = true) (hr : registered g1 n)
    (hw : g1.winner ≠ none) :
    move_is_valid g1 n coords d
      = some (false, g1.errors
          ++ ["A player has already won: " ++ (get_winner g1).getD ""]) := by
  have hgw : get_winner g1 ≠ none := by
    unfold get_winner
    cases hww : g1.winner with
    | none => exact absurd hww hw
    | some p => simp
  unfold move_is_valid
  rw [if_neg (fun hcon => hcon hd), if_neg (fun hcon => hcon hr), if_pos hgw]

theorem move_is_valid_rejects_when_won (g1 : Game) (n : String)
    (coords : Int × Int) (d : String) (hw : g1.winner ≠ none) :
    ∃ e, move_is_valid g1 n coords d = some (false, g1.errors ++ [e]) := by
  have hgw : get_winner g1 ≠ none := by
    unfold get_winner
    cases hww : g1.winner with
    | none => exact absurd hww hw
    | some p => simp
  unfold move_is_valid
  by_cases h1 : ¬ py_in_str d "FBLR" = true
  · rw [if_pos h1]
    exact ⟨_, rfl⟩
  · rw [if_neg h1]
    by_cases h2 : ¬ registered g1 n
    · rw [if_pos h2]
      exact ⟨_, rfl⟩
    · rw [if_neg h2, if_pos hgw]
      exact ⟨_, rfl⟩

theorem make_move_already_won_step (g : Game) (w : Pid)
    (hcw : check_win_conditions g = { g with winner := some w })
    (n : String) (coords : Int × Int) (d : String) :
    (make_move g n coords d).1 = MoveResult.ok false
    ∧ (make_move g n coords d).2.board = g.board
    ∧ (make_move g n coords d).2.history = g.history
    ∧ (make_move g n coords d).2.pa = g.pa
    ∧ (make_move g n coords d).2.pb = g.pb
    ∧ (make_move g n coords d).2.turn = g.turn
    ∧ (make_move g n coords d).2.winner = some w := by
  have hw1 : (check_win_conditions g).winner ≠ none := by
    rw [hcw]
    simp
  obtain ⟨e, hmv⟩ :=
    move_is_valid_rejects_when_won (check_win_conditions g) n coords d hw1
  rw [make_move_invalid_eq g n coords d _ hmv]
  obtain ⟨hb, hh, ht, hpa, hpb, he⟩ := check_win_preserves g
  refine ⟨rfl, by simp [hb], by simp [hh], by simp [hpa], by simp [hpb],
    by simp [ht], ?_⟩
  have : (check_win_conditions g).winner = some w := by
    rw [hcw]
  simp [this]

theorem run_moves_already_won (pid : Pid) (reqs : List Req) :
    ∀ g : Game, g.pa.name ≠ g.pb.name →
      wins_now (playerOf g pid) = true →
      (pid = Pid.b → wins_now (playerOf g Pid.a) = false) →
      (run_moves g reqs).pa = g.pa
      ∧ (run_moves g reqs).pb = g.pb
      ∧ (run_moves g reqs).board = g.board
      ∧ (run_moves g reqs).history = g.history
      ∧ (run_moves g reqs).turn = g.turn
      ∧ (reqs ≠ [] → (run_moves g reqs).winner = some pid) := by
  induction reqs with
  | nil =>
    intro g _ _ _
    exact ⟨rfl, rfl, rfl, rfl, rfl, fun hne => absurd rfl hne⟩
  | cons r rs ih =>
    intro g hn hq hf
    have hcw := check_win_sets_winner g pid hn hq hf
    obtain ⟨-, hsb, hsh, hspa, hspb, hst, hsw⟩ :=
      make_move_already_won_step g pid hcw r.name r.coords r.dir
    have hrun : run_moves g (r :: rs)
        = run_moves (make_move g r.name r.coords r.dir).2 rs := rfl
    obtain ⟨ipa, ipb, ib, ih2, it, iw⟩ :=
      ih (make_move g r.name r.coords r.dir).2
        (by rw [hspa, hspb]; exact hn)
        (by cases pid with
            | a => simpa [playerOf, hspa] using hq
            | b => simpa [playerOf, hspb] using hq)
        (by intro hb2
            have := hf hb2
            simpa [playerOf, hspa] using this)
    rw [hrun]
    refine ⟨ipa.trans hspa, ipb.trans hspb, ib.trans hsb, ih2.trans hsh,
      it.trans hst, ?_⟩
    intro _
    cases rs with
    | nil => simpa [run_moves] using hsw
    | cons r2 rs2 => exact iw (by simp)

/-- C5: if at the start of a `make_move` call a player's captured marbles
have reached 7 red marbles or 8 marbles of either non-neutral colour (for
player B additionally assuming player A does not also qualify, since the
dict-order scan picks the first qualifying player), then no call ever
returns True again, any call whose direction and player pass the two earlier
checks is rejected with the `already won` reason naming that player, and
after every non-empty request sequence the winner field holds that player,
`get_winner` returns their name, and board, history, captured collections
and turn are frozen — the winner never changes. -/
theorem c5_pending_win_sets_permanent_winner (g : Game) (pid : Pid)
    (hn : g.pa.name ≠ g.pb.name)
    (hqual : get_captured_count (playerOf g pid) Cell.R = 7
        ∨ get_captured_count (playerOf g pid) Cell.B = 8
        ∨ get_captured_count (playerOf g pid) Cell.W = 8)
    (hfirst : pid = Pid.b →
        ¬ (get_captured_count g.pa Cell.R = 7 ∨ get_captured_count g.pa Cell.B = 8
            ∨ get_captured_count g.pa Cell.W = 8)) :
    (∀ (n : String) (coords : Int × Int) (d : String),
        (make_move g n coords d).1 ≠ MoveResult.ok true)
    ∧ (∀ (n : String) (coords : Int × Int) (d : String),
        py_in_str d "FBLR" = true → registered (check_win_conditions g) n →
        (make_move g n coords d).2.errors
          = g.errors ++ ["A player has already won: " ++ (playerOf g pid).name])
    ∧ (∀ reqs : List Req, reqs ≠ [] →
        (run_moves g reqs).winner = some pid
        ∧ get_winner (run_moves g reqs) = some ((playerOf g pid).name)
        ∧ (run_moves g reqs).board = g.board
        ∧ (run_moves g reqs).history = g.history
        ∧ (run_moves g reqs).pa.captured = g.pa.captured
        ∧ (run_moves g reqs).pb.captured = g.pb.captured
        ∧ (run_moves g reqs).turn = g.turn) := by
  have hq : wins_now (playerOf g pid) = true := by
    simp only [wins_now, decide_eq_true_eq]
    exact hqual
  have hf : pid = Pid.b → wins_now (playerOf g Pid.a) = false := by
    intro hb
    have := hfirst hb
    simp only [wins_now, decide_eq_false_iff_not]
    simpa [playerOf] using this
  have hcw := check_win_sets_winner g pid hn hq hf
  refine ⟨?_, ?_, ?_⟩
  · intro n coords d hcommit
    obtain ⟨h1, -⟩ := make_move_already_won_step g pid hcw n coords d
    rw [h1] at hcommit
    exact Bool.noConfusion (MoveResult.ok.inj hcommit)
  · intro n coords d hd hr
    have hw1 : (check_win_conditions g).winner ≠ none := by
      rw [hcw]
      simp
    have hmv := move_is_valid_already_won_msg (check_win_conditions g)
      n coords d hd hr hw1
    rw [make_move_invalid_eq g n coords d _ hmv]
    have hgwn : (get_winner (check_win_conditions g)).getD ""
        = (playerOf g pid).name := by
      rw [hcw]
      cases pid <;> simp [get_winner, playerOf]
    obtain ⟨-, -, -, -, -, he⟩ := check_win_preserves g
    simp [hgwn, he]
  · intro reqs hne
    obtain ⟨ipa, ipb, ib, ihist, it, iw⟩ := run_moves_already_won pid reqs g hn hq hf
    refine ⟨iw hne, ?_, ib, ihist, by rw [ipa], by rw [ipb], it⟩
    unfold get_winner
    rw [iw hne]
    cases pid with
    | a => simp [playerOf, ipa]
    | b => simp [playerOf, ipb]

/-- Witness for C5: in `game_pending_win` (player A holds seven captured
reds) the next call cannot commit and the winner becomes and stays player
A. -/
theorem c5_witness :
    (make_move game_pending_win "B" ((5 : Int), (0 : Int)) "R").1 ≠ MoveResult.ok true
    ∧ (run_moves game_pending_win [⟨"B", (5, 0), "R"⟩]).winner = some Pid.a := by
  obtain ⟨h1, -, h3⟩ :=
    c5_pending_win_sets_permanent_winner game_pending_win Pid.a
      (by decide) (by decide) (fun hb => Pid.noConfusion hb)
  exact ⟨h1 "B" (5, 0) "R", (h3 [⟨"B", (5, 0), "R"⟩] (by simp)).1⟩

/-! ### Turn-order lemmas (for C6) -/

theorem move_is_valid_true_registered (g : Game) (n : String) (coords : Int × Int)
    (d : String) (errs : List String)
    (h : move_is_valid g n coords d = some (true, errs)) : registered g n := by
  unfold move_is_valid at h
  split at h
  · simp at h
  · split at h
    · simp at h
    · rename_i hcon
      exact not_not.mp hcon

theorem move_is_valid_true_turn (g : Game) (n : String) (coords : Int × Int)
    (d : String) (errs : List String)
    (h : move_is_valid g n coords d = some (true, errs)) :
    ∀ q, g.turn = some q → n = (playerOf g q).name := by
  intro q hq
  have hct : get_current_turn g = some ((playerOf g q).name) := by
    unfold get_current_turn
    rw [hq]
    rfl
  unfold move_is_valid at h
  split at h
  · simp at h
  · split at h
    · simp at h
    · split at h
      · simp at h
      · split at h
        · simp at h
        · split at h
          · simp at h
          · rename_i hcon
            push_neg at hcon
            have h2 := hcon (by rw [hct]; simp)
            rw [hct] at h2
            simpa using h2

theorem commit_implies_valid (g : Game) (n : String) (coords : Int × Int)
    (d : String) (h : (make_move g n coords d).1 = MoveResult.ok true) :
    ∃ errs, move_is_valid (check_win_conditions g) n coords d = some (true, errs) := by
  cases hmv : move_is_valid (check_win_conditions g) n coords d with
  | none =>
    rw [make_move_exn_eq g n coords d hmv] at h
    exact absurd h (by simp)
  | some pr =>
    obtain ⟨bv, errs⟩ := pr
    cases bv with
    | false =>
      rw [make_move_invalid_eq g n coords d errs hmv] at h
      exact absurd h (by simp)
    | true => exact ⟨errs, rfl⟩

theorem make_move_preserves_names (g : Game) (n : String) (coords : Int × Int)
    (d : String) :
    (make_move g n coords d).2.pa.name = g.pa.name
    ∧ (make_move g n coords d).2.pb.name = g.pb.name := by
  obtain ⟨hb, hh, ht, hpa, hpb, he⟩ := check_win_preserves g
  cases hmv : move_is_valid (check_win_conditions g) n coords d with
  | none =>
    rw [make_move_exn_eq g n coords d hmv]
    rw [hpa, hpb]
    exact ⟨rfl, rfl⟩
  | some pr =>
    obtain ⟨bv, errs⟩ := pr
    cases bv with
    | false =>
      rw [make_move_invalid_eq g n coords d errs hmv]
      exact ⟨by simp [hpa], by simp [hpb]⟩
    | true =>
      by_cases hcirc : ((check_win_conditions g).history.length > 1 ∧
          is_same_board ((check_win_conditions g).history.getD
            ((check_win_conditions g).history.length - 2) [])
            (apply_push (check_win_conditions g) coords d).2 = true)
      · rw [make_move_circular_eq g n coords d errs hmv hcirc.1 hcirc.2]
        exact ⟨by simp [hpa], by simp [hpb]⟩
      · obtain ⟨-, -, -, -, -, -, hnonecap, hsomecap⟩ :=
          make_move_commit_parts g n coords d errs hmv hcirc
        cases hres : (apply_push (check_win_conditions g) coords d).1 with
        | none =>
          obtain ⟨h1, h2⟩ := hnonecap hres
          rw [h1, h2]
          exact ⟨rfl, rfl⟩
        | some m =>
          obtain ⟨h1, h2⟩ := hsomecap m hres
          rw [h1, h2]
          constructor
          · by_cases hp : get_player g n = Pid.a <;> simp [hp]
          · by_cases hp : get_player g n = Pid.b <;> simp [hp]

/-- C6: before the first committed move the current turn is `None`; with no
turn set, a registered player's request is judged purely by the remaining
checks (marble ownership and push feasibility), so either registered player
may make the first move; every committed move flips the turn pointer to the
other player and `get_current_turn` then returns the other player's name; a
request by a player other than the turn holder that reaches the turn check
is rejected with the `Not your turn` reason and commits nothing; and two
consecutive committed moves are never made by the same name. -/
theorem c6_turn_alternation :
    (∀ (player_a_info player_b_info : String × Cell),
      (init_game player_a_info player_b_info).turn = none
      ∧ get_current_turn (init_game player_a_info player_b_info) = none)
    ∧ (∀ (g : Game) (n : String) (coords : Int × Int) (d : String),
      g.turn = none → py_in_str d "FBLR" = true → registered g n →
      get_winner g = none →
      (0 ≤ coords.1 ∧ coords.1 ≤ 6 ∧ 0 ≤ coords.2 ∧ coords.2 ≤ 6) →
      move_is_valid g n coords d
        = (if get_marble g coords ≠ (playerOf g (get_player g n)).color then
            some (false, g.errors ++ ["Not your marble!"])
          else
            let pr := is_valid_push g coords d (playerOf g (get_player g n)).color
            if pr.1 = some true then some (true, pr.2)
            else
              match pr.2.getLast? with
              | none => none
              | some e => some (false, pr.2.dropLast ++ ["Cant push because: " ++ e])))
    ∧ (∀ (g : Game) (n : String) (coords : Int × Int) (d : String),
      (make_move g n coords d).1 = MoveResult.ok true →
      (make_move g n coords d).2.turn
          = some (if get_player g n = Pid.a then Pid.b else Pid.a)
      ∧ get_current_turn (make_move g n coords d).2
          = some ((playerOf g (if get_player g n = Pid.a then Pid.b else Pid.a)).name))
    ∧ (∀ (g : Game) (n : String) (coords : Int × Int) (d : String) (q : Pid),
      g.turn = some q → n ≠ (playerOf g q).name →
      py_in_str d "FBLR" = true → registered (check_win_conditions g) n →
      (check_win_conditions g).winner = none →
      (0 ≤ coords.1 ∧ coords.1 ≤ 6 ∧ 0 ≤ coords.2 ∧ coords.2 ≤ 6) →
      (make_move g n coords d).1 = MoveResult.ok false
      ∧ (make_move g n coords d).2.errors
          = g.errors ++ ["Not your turn. Current turn: " ++ (playerOf g q).name]
      ∧ (make_move g n coords d).2.board = g.board
      ∧ (make_move g n coords d).2.history = g.history
      ∧ (make_move g n coords d).2.pa = g.pa
      ∧ (make_move g n coords d).2.pb = g.pb
      ∧ (make_move g n coords d).2.turn = g.turn)
    ∧ (∀ (g : Game) (n1 n2 : String) (c1 c2 : Int × Int) (d1 d2 : String),
      g.pa.name ≠ g.pb.name →
      (make_move g n1 c1 d1).1 = MoveResult.ok true →
      (make_move (make_move g n1 c1 d1).2 n2 c2 d2).1 = MoveResult.ok true →
      n2 ≠ n1) := by
  have hC : ∀ (g : Game) (n : String) (coords : Int × Int) (d : String),
      (make_move g n coords d).1 = MoveResult.ok true →
      (make_move g n coords d).2.turn
        = some (if get_player g n = Pid.a then Pid.b else Pid.a) := by
    intro g n coords d h
    obtain ⟨errs, hmv⟩ := commit_implies_valid g n coords d h
    by_cases hcirc : ((check_win_conditions g).history.length > 1 ∧
        is_same_board ((check_win_conditions g).history.getD
          ((check_win_conditions g).history.length - 2) [])
          (apply_push (check_win_conditions g) coords d).2 = true)
    · rw [make_move_circular_eq g n coords d errs hmv hcirc.1 hcirc.2] at h
      exact absurd h (by simp)
    · exact (make_move_commit_parts g n coords d errs hmv hcirc).2.2.2.1
  refine ⟨?_, ?_, ?_, ?_, ?_⟩
  · intro ainfo binfo
    exact ⟨rfl, rfl⟩
  · intro g n coords d hturn hd hr hw hrange
    unfold move_is_valid
    rw [if_neg (fun hc => hc hd), if_neg (fun hc => hc hr),
      if_neg (fun hc => hc hw), if_neg (fun hc => hc hrange),
      if_neg (fun hcon => hcon.1 (by unfold get_current_turn; rw [hturn]; rfl))]
  · intro g n coords d h
    have hturn := hC g n coords d h
    refine ⟨hturn, ?_⟩
    have hnames := make_move_preserves_names g n coords d
    unfold get_current_turn
    rw [hturn]
    cases hq : (if get_player g n = Pid.a then Pid.b else Pid.a) with
    | a => simp [playerOf, hnames.1]
    | b => simp [playerOf, hnames.2]
  · intro g n coords d q hturn hne hd hr hwin hrange
    obtain ⟨hb, hh, ht, hpa, hpb, he⟩ := check_win_preserves g
    have hct : get_current_turn (check_win_conditions g)
        = some ((playerOf g q).name) := by
      unfold get_current_turn
      rw [ht, hturn]
      cases q <;> simp [playerOf, hpa, hpb]
    have hmv : move_is_valid (check_win_conditions g) n coords d
        = some (false, (check_win_conditions g).errors
            ++ ["Not your turn. Current turn: "
                ++ (get_current_turn (check_win_conditions g)).getD ""]) := by
      unfold move_is_valid
      rw [if_neg (fun hc => hc hd), if_neg (fun hc => hc hr),
        if_neg (fun hc => hc (by unfold get_winner; rw [hwin]; rfl)),
        if_neg (fun hc => hc hrange),
        if_pos ⟨by rw [hct]; simp, by rw [hct]; simpa using hne⟩]
    rw [make_move_invalid_eq g n coords d _ hmv]
    refine ⟨rfl, ?_, by simp [hb], by simp [hh], by simp [hpa], by simp [hpb],
      by simp [ht]⟩
    simp only []
    rw [he, hct]
    rfl
  · intro g n1 n2 c1 c2 d1 d2 hn h1 h2
    have hq1 := hC g n1 c1 d1 h1
    obtain ⟨errs2, hv2⟩ :=
      commit_implies_valid (make_move g n1 c1 d1).2 n2 c2 d2 h2
    obtain ⟨-, -, ht1, hpa1, hpb1, -⟩ :=
      check_win_preserves (make_move g n1 c1 d1).2
    have hnames := make_move_preserves_names g n1 c1 d1
    have hturn2 := move_is_valid_true_turn _ _ _ _ _ hv2
      (if get_player g n1 = Pid.a then Pid.b else Pid.a)
      (by rw [ht1, hq1])
    by_cases hp : get_player g n1 = Pid.a
    · rw [hp] at hturn2
      simp only [if_pos rfl] at hturn2
      have hn2 : n2 = g.pb.name := by
        rw [hturn2]
        simp [playerOf, hpb1, hnames.2]
      have hn1 : n1 ≠ g.pb.name := by
        intro hc
        unfold get_player at hp
        rw [if_pos hc] at hp
        exact Pid.noConfusion hp
      rw [hn2]
      exact fun hc => hn1 hc.symm
    · have hpb2 : get_player g n1 = Pid.b := by
        cases hgp : get_player g n1 with
        | a => exact absurd hgp hp
        | b => rfl
      rw [hpb2] at hturn2
      rw [if_neg (by decide : ¬ (Pid.b = Pid.a))] at hturn2
      have hn2 : n2 = g.pa.name := by
        rw [hturn2]
        simp [playerOf, hpa1, hnames.1]
      have hn1 : n1 = g.pb.name := by
        unfold get_player at hpb2
        by_cases hc : n1 = g.pb.name
        · exact hc
        · rw [if_neg hc] at hpb2
          exact absurd hpb2.symm (fun h => Pid.noConfusion h)
      rw [hn2, hn1]
      exact hn

/-- Witness for C6: after the opening commit the turn belongs to B, and the
same player's immediate second attempt is rejected with the turn reason. -/
theorem c6_witness :
    (make_move demo_after_first "A" ((0 : Int), (2 : Int)) "L").1 = MoveResult.ok false
    ∧ (make_move demo_after_first "A" ((0 : Int), (2 : Int)) "L").2.errors
        = ["Not your turn. Current turn: B"] := by
  obtain ⟨-, -, -, hd, -⟩ := c6_turn_alternation
  obtain ⟨h1, h2, -⟩ := hd demo_after_first "A" (0, 2) "L" Pid.b
    (by decide) (by decide) (by decide) (by decide) (by decide) (by decide)
  refine ⟨h1, ?_⟩
  rw [h2]
  decide

/-! ### Counting lemmas (for C10) -/

theorem push_right_length (l : Row) (p : Nat) (h7 : l.length = 7) (hp : p ≤ 6) :
    (push_right p l).2.length = 7 := by
  cases hfi : (l.drop p).findIdx? (fun x => x = Cell.X) with
  | some j =>
    obtain ⟨hj, -⟩ := List.findIdx?_eq_some_iff_findIdx_eq.mp hfi
    have hlen : p + j < l.length := by
      have := List.length_drop p l
      omega
    rw [push_right_found_eq l p j hfi, List.length_insertIdx]
    · rw [List.length_eraseIdx, if_pos hlen]
      omega
    · rw [List.length_eraseIdx, if_pos hlen]
      omega
  | none =>
    obtain ⟨-, h2⟩ := push_right_eject_decomp l p (by omega) hfi
    rw [h2]
    simp only [List.length_append, List.length_cons, List.length_dropLast,
      List.length_drop, List.length_take]
    omega

theorem count_set_add (row : Row) (j : Nat) (v c : Cell) (hj : j < row.length) :
    (row.set j v).count c + (if row.getD j Cell.X = c then 1 else 0)
      = row.count c + (if v = c then 1 else 0) := by
  induction row generalizing j with
  | nil => simp at hj
  | cons a t ih =>
    cases j with
    | zero =>
      simp only [List.set_cons_zero, List.count_cons, List.getD_cons_zero,
        beq_iff_eq]
      omega
    | succ jj =>
      simp only [List.set_cons_succ, List.count_cons, List.getD_cons_succ,
        beq_iff_eq]
      have := ih jj (by simpa using hj)
      omega

theorem marble_count_cons (r : Row) (b : Board) (c : Cell) :
    marble_count (r :: b) c = r.count c + marble_count b c := by
  simp [marble_count]

theorem marble_count_set (b : Board) (i : Nat) (row2 : Row) (c : Cell)
    (hi : i < b.length) :
    marble_count (b.set i row2) c + (b.getD i []).count c
      = marble_count b c + row2.count c := by
  induction b generalizing i with
  | nil => simp at hi
  | cons r t ih =>
    cases i with
    | zero =>
      simp only [List.set_cons_zero, marble_count_cons, List.getD_cons_zero]
      omega
    | succ ii =>
      simp only [List.set_cons_succ, marble_count_cons, List.getD_cons_succ]
      have := ih ii (by simpa using hi)
      omega

theorem marble_count_zip_set (b : Board) (col2 : Row) (j : Nat) (c : Cell)
    (hlen : col2.length = b.length) (hj : ∀ row ∈ b, j < row.length) :
    marble_count (List.zipWith (fun r v => r.set j v) b col2) c
      + (b.map fun row => row.getD j Cell.X).count c
      = marble_count b c + col2.count c := by
  induction b generalizing col2 with
  | nil =>
    cases col2 with
    | nil => simp [marble_count]
    | cons v vs => simp at hlen
  | cons r t ih =>
    cases col2 with
    | nil => simp at hlen
    | cons v vs =>
      simp only [List.zipWith_cons_cons, marble_count_cons, List.map_cons,
        List.count_cons, beq_iff_eq]
      have h1 := count_set_add r j v c (hj r (by simp))
      have h2 := ih vs (by simpa using hlen) (fun row hr => hj row (by simp [hr]))
      omega

theorem zip_set_rows_length (b : Board) (col2 : Row) (j : Nat)
    (hrows : ∀ row ∈ b, row.length = 7) :
    ∀ r2 ∈ List.zipWith (fun r v => r.set j v) b col2, r2.length = 7 := by
  induction b generalizing col2 with
  | nil => simp
  | cons r t ih =>
    cases col2 with
    | nil => simp
    | cons v vs =>
      intro r2 hr2
      simp only [List.zipWith_cons_cons, List.mem_cons] at hr2
      rcases hr2 with h | h
      · rw [h, List.length_set]
        exact hrows r (by simp)
      · exact ih vs (fun row hr => hrows row (by simp [hr])) r2 h

theorem apply_push_R_eq (g : Game) (coords : Int × Int) :
    apply_push g coords "R"
      = ((push_right coords.2.toNat (get_row g coords.1)).1,
          replace_row coords.1 (push_right coords.2.toNat (get_row g coords.1)).2 g.board) := by
  unfold apply_push
  rw [if_pos rfl]

theorem apply_push_B_eq (g : Game) (coords : Int × Int) :
    apply_push g coords "B"
      = ((push_right coords.1.toNat (get_column g coords.2)).1,
          replace_column coords.2 (push_right coords.1.toNat (get_column g coords.2)).2 g.board) := by
  unfold apply_push
  rw [if_neg (by decide : ¬ ("B" : String) = "R"), if_pos rfl]

theorem apply_push_L_eq (g : Game) (coords : Int × Int) :
    apply_push g coords "L"
      = ((push_right (6 - coords.2).toNat (get_row g coords.1).reverse).1,
          replace_row coords.1
            (push_right (6 - coords.2).toNat (get_row g coords.1).reverse).2.reverse g.board) := by
  unfold apply_push
  rw [if_neg (by decide : ¬ ("L" : String) = "R"),
    if_neg (by decide : ¬ ("L" : String) = "B"), if_pos rfl]

theorem apply_push_F_eq (g : Game) (coords : Int × Int) :
    apply_push g coords "F"
      = ((push_right (6 - coords.1).toNat (get_column g coords.2).reverse).1,
          replace_column coords.2
            (push_right (6 - coords.1).toNat (get_column g coords.2).reverse).2.reverse g.board) := by
  unfold apply_push
  rw [if_neg (by decide : ¬ ("F" : String) = "R"),
    if_neg (by decide : ¬ ("F" : String) = "B"),
    if_neg (by decide : ¬ ("F" : String) = "L"), if_pos rfl]

theorem apply_push_other_eq (g : Game) (coords : Int × Int) (direction : String)
    (hR : direction ≠ "R") (hB : direction ≠ "B") (hL : direction ≠ "L")
    (hF : direction ≠ "F") :
    apply_push g coords direction = (none, g.board) := by
  unfold apply_push
  rw [if_neg hR, if_neg hB, if_neg hL, if_neg hF]

theorem apply_push_count (g : Game) (coords : Int × Int) (direction : String)
    (c : Cell) (hc : c ≠ Cell.X)
    (hlen : g.board.length = 7) (hrows : ∀ row ∈ g.board, row.length = 7)
    (hr1 : 0 ≤ coords.1 ∧ coords.1 ≤ 6) (hc2 : 0 ≤ coords.2 ∧ coords.2 ≤ 6) :
    marble_count (apply_push g coords direction).2 c
      + (match (apply_push g coords direction).1 with
          | some e => if e = c then 1 else 0
          | none => 0)
      = marble_count g.board c := by
  have hshape : g.board.length = 7 ∧ ∀ row ∈ g.board, row.length = 7 := ⟨hlen, hrows⟩
  have hidx1 : coords.1.toNat < g.board.length := by omega
  by_cases hR : direction = "R"
  · subst hR
    rw [apply_push_R_eq]
    have h7r : (get_row g coords.1).length = 7 :=
      get_row_length g coords.1 hr1.1 hr1.2 hshape
    have hcount := push_right_count (get_row g coords.1) coords.2.toNat h7r
      (by omega) c hc
    have hset := marble_count_set g.board coords.1.toNat
      (push_right coords.2.toNat (get_row g coords.1)).2 c hidx1
    rw [show g.board.getD coords.1.toNat [] = get_row g coords.1 from rfl] at hset
    simp only [replace_row]
    omega
  by_cases hB : direction = "B"
  · subst hB
    rw [apply_push_B_eq]
    have h7c : (get_column g coords.2).length = 7 :=
      get_column_length g coords.2 hshape
    have hcount := push_right_count (get_column g coords.2) coords.1.toNat h7c
      (by omega) c hc
    have h7p : (push_right coords.1.toNat (get_column g coords.2)).2.length = 7 :=
      push_right_length _ _ h7c (by omega)
    have hzip := marble_count_zip_set g.board
      (push_right coords.1.toNat (get_column g coords.2)).2 coords.2.toNat c
      (by rw [h7p, hlen]) (fun row hrow => by rw [hrows row hrow]; omega)
    rw [show (g.board.map fun row => row.getD coords.2.toNat Cell.X)
        = get_column g coords.2 from rfl] at hzip
    simp only [replace_column]
    omega
  by_cases hL : direction = "L"
  · subst hL
    rw [apply_push_L_eq]
    have h7r : (get_row g coords.1).reverse.length = 7 := by
      rw [List.length_reverse]
      exact get_row_length g coords.1 hr1.1 hr1.2 hshape
    have hcount := push_right_count (get_row g coords.1).reverse (6 - coords.2).toNat
      h7r (by omega) c hc
    have hset := marble_count_set g.board coords.1.toNat
      (push_right (6 - coords.2).toNat (get_row g coords.1).reverse).2.reverse c hidx1
    rw [show g.board.getD coords.1.toNat [] = get_row g coords.1 from rfl] at hset
    rw [List.count_reverse] at hcount hset
    simp only [replace_row]
    omega
  by_cases hF : direction = "F"
  · subst hF
    rw [apply_push_F_eq]
    have h7c : (get_column g coords.2).reverse.length = 7 := by
      rw [List.length_reverse]
      exact get_column_length g coords.2 hshape
    have hcount := push_right_count (get_column g coords.2).reverse
      (6 - coords.1).toNat h7c (by omega) c hc
    have h7p : (push_right (6 - coords.1).toNat
        (get_column g coords.2).reverse).2.length = 7 :=
      push_right_length _ _ h7c (by omega)
    have hzip := marble_count_zip_set g.board
      (push_right (6 - coords.1).toNat (get_column g coords.2).reverse).2.reverse
      coords.2.toNat c
      (by rw [List.length_reverse, h7p, hlen])
      (fun row hrow => by rw [hrows row hrow]; omega)
    rw [show (g.board.map fun row => row.getD coords.2.toNat Cell.X)
        = get_column g coords.2 from rfl] at hzip
    rw [List.count_reverse] at hcount hzip
    simp only [replace_column]
    omega
  · rw [apply_push_other_eq g coords direction hR hB hL hF]
    simp

theorem apply_push_shape (g : Game) (coords : Int × Int) (direction : String)
    (hlen : g.board.length = 7) (hrows : ∀ row ∈ g.board, row.length = 7)
    (hr1 : 0 ≤ coords.1 ∧ coords.1 ≤ 6) (hc2 : 0 ≤ coords.2 ∧ coords.2 ≤ 6) :
    (apply_push g coords direction).2.length = 7
    ∧ ∀ row ∈ (apply_push g coords direction).2, row.length = 7 := by
  have hshape : g.board.length = 7 ∧ ∀ row ∈ g.board, row.length = 7 := ⟨hlen, hrows⟩
  by_cases hR : direction = "R"
  · subst hR
    rw [apply_push_R_eq]
    have h7p : (push_right coords.2.toNat (get_row g coords.1)).2.length = 7 :=
      push_right_length _ _ (get_row_length g coords.1 hr1.1 hr1.2 hshape) (by omega)
    refine ⟨by simp only [replace_row, List.length_set, hlen], ?_⟩
    intro row hrow
    rcases List.mem_or_eq_of_mem_set hrow with h | h
    · exact hrows row h
    · rw [h]
      exact h7p
  by_cases hB : direction = "B"
  · subst hB
    rw [apply_push_B_eq]
    have h7p : (push_right coords.1.toNat (get_column g coords.2)).2.length = 7 :=
      push_right_length _ _ (get_column_length g coords.2 hshape) (by omega)
    refine ⟨?_, zip_set_rows_length g.board _ coords.2.toNat hrows⟩
    simp only [replace_column, List.length_zipWith, hlen, h7p]
    omega
  by_cases hL : direction = "L"
  · subst hL
    rw [apply_push_L_eq]
    have h7p : (push_right (6 - coords.2).toNat (get_row g coords.1).reverse).2.length = 7 := by
      refine push_right_length _ _ ?_ (by omega)
      rw [List.length_reverse]
      exact get_row_length g coords.1 hr1.1 hr1.2 hshape
    refine ⟨by simp only [replace_row, List.length_set, hlen], ?_⟩
    intro row hrow
    rcases List.mem_or_eq_of_mem_set hrow with h | h
    · exact hrows row h
    · rw [h, List.length_reverse]
      exact h7p
  by_cases hF : direction = "F"
  · subst hF
    rw [apply_push_F_eq]
    have h7p : (push_right (6 - coords.1).toNat
        (get_column g coords.2).reverse).2.length = 7 := by
      refine push_right_length _ _ ?_ (by omega)
      rw [List.length_reverse]
      exact get_column_length g coords.2 hshape
    refine ⟨?_, zip_set_rows_length g.board _ coords.2.toNat hrows⟩
    simp only [replace_column, List.length_zipWith, List.length_reverse, hlen, h7p]
    omega
  · rw [apply_push_other_eq g coords direction hR hB hL hF]
    exact ⟨hlen, hrows⟩

theorem move_is_valid_true_range (g : Game) (n : String) (coords : Int × Int)
    (d : String) (errs : List String)
    (h : move_is_valid g n coords d = some (true, errs)) :
    0 ≤ coords.1 ∧ coords.1 ≤ 6 ∧ 0 ≤ coords.2 ∧ coords.2 ≤ 6 := by
  unfold move_is_valid at h
  split at h
  · simp at h
  · split at h
    · simp at h
    · split at h
      · simp at h
      · split at h
        · simp at h
        · rename_i hcon
          exact not_not.mp hcon

theorem make_move_conserves (g : Game) (n : String) (coords : Int × Int)
    (d : String) (c : Cell) (hc : c ≠ Cell.X)
    (hlen : g.board.length = 7) (hrows : ∀ row ∈ g.board, row.length = 7) :
    (make_move g n coords d).2.board.length = 7
    ∧ (∀ row ∈ (make_move g n coords d).2.board, row.length = 7)
    ∧ marble_count (make_move g n coords d).2.board c
        + (make_move g n coords d).2.pa.captured.count c
        + (make_move g n coords d).2.pb.captured.count c
      = marble_count g.board c + g.pa.captured.count c + g.pb.captured.count c := by
  obtain ⟨hb, hh, ht, hpa, hpb, he⟩ := check_win_preserves g
  cases hmv : move_is_valid (check_win_conditions g) n coords d with
  | none =>
    rw [make_move_exn_eq g n coords d hmv]
    refine ⟨?_, ?_, ?_⟩
    · rw [hb]
      exact hlen
    · intro row hrow
      rw [hb] at hrow
      exact hrows row hrow
    · rw [hb, hpa, hpb]
  | some p =>
    obtain ⟨bb, errs⟩ := p
    cases bb with
    | false =>
      rw [make_move_invalid_eq g n coords d errs hmv]
      have hb2 : ({ check_win_conditions g with errors := errs } : Game).board
          = g.board := hb
      have hpa2 : ({ check_win_conditions g with errors := errs } : Game).pa
          = g.pa := hpa
      have hpb2 : ({ check_win_conditions g with errors := errs } : Game).pb
          = g.pb := hpb
      refine ⟨?_, ?_, ?_⟩
      · rw [hb2]
        exact hlen
      · intro row hrow
        rw [hb2] at hrow
        exact hrows row hrow
      · rw [hb2, hpa2, hpb2]
    | true =>
      by_cases hcirc : (check_win_conditions g).history.length > 1 ∧
          is_same_board ((check_win_conditions g).history.getD
            ((check_win_conditions g).history.length - 2) [])
            (apply_push (check_win_conditions g) coords d).2 = true
      · rw [make_move_circular_eq g n coords d errs hmv hcirc.1 hcirc.2]
        have hb2 : ({ { check_win_conditions g with errors := errs } with
            errors := errs ++ ["Cannot make a circular move!"] } : Game).board
            = g.board := hb
        have hpa2 : ({ { check_win_conditions g with errors := errs } with
            errors := errs ++ ["Cannot make a circular move!"] } : Game).pa
            = g.pa := hpa
        have hpb2 : ({ { check_win_conditions g with errors := errs } with
            errors := errs ++ ["Cannot make a circular move!"] } : Game).pb
            = g.pb := hpb
        refine ⟨?_, ?_, ?_⟩
        · rw [hb2]
          exact hlen
        · intro row hrow
          rw [hb2] at hrow
          exact hrows row hrow
        · rw [hb2, hpa2, hpb2]
      · obtain ⟨-, hboard, -, -, -, -, hnone, hsome⟩ :=
          make_move_commit_parts g n coords d errs hmv hcirc
        obtain ⟨hr1a, hr1b, hr2a, hr2b⟩ :=
          move_is_valid_true_range (check_win_conditions g) n coords d errs hmv
        have hlen1 : (check_win_conditions g).board.length = 7 := by
          rw [hb]
          exact hlen
        have hrows1 : ∀ row ∈ (check_win_conditions g).board, row.length = 7 := by
          rw [hb]
          exact hrows
        have hsh := apply_push_shape (check_win_conditions g) coords d hlen1 hrows1
          ⟨hr1a, hr1b⟩ ⟨hr2a, hr2b⟩
        have hcnt := apply_push_count (check_win_conditions g) coords d c hc
          hlen1 hrows1 ⟨hr1a, hr1b⟩ ⟨hr2a, hr2b⟩
        rw [hb] at hcnt
        refine ⟨?_, ?_, ?_⟩
        · rw [hboard]
          exact hsh.1
        · intro row hrow
          rw [hboard] at hrow
          exact hsh.2 row hrow
        · rw [hboard]
          cases hres : (apply_push (check_win_conditions g) coords d).1 with
          | none =>
            obtain ⟨hpa3, hpb3⟩ := hnone hres
            rw [hres] at hcnt
            rw [show (match (none : Option Cell) with
                | some e => if e = c then 1 else 0
                | none => 0) = 0 from rfl] at hcnt
            rw [hpa3, hpb3]
            omega
          | some m =>
            obtain ⟨hpa3, hpb3⟩ := hsome m hres
            rw [hres] at hcnt
            rw [show (match (some m : Option Cell) with
                | some e => if e = c then 1 else 0
                | none => 0) = (if m = c then 1 else 0) from rfl] at hcnt
            by_cases hpid : get_player g n = Pid.a
            · rw [if_pos hpid] at hpa3
              rw [if_neg (by rw [hpid]; exact fun hx => Pid.noConfusion hx)] at hpb3
              rw [hpa3, hpb3]
              rw [show ({ g.pa with captured := g.pa.captured ++ [m] } : Player).captured
                  = g.pa.captured ++ [m] from rfl]
              rw [List.count_append]
              simp only [List.count_singleton, beq_iff_eq]
              omega
            · rw [if_neg hpid] at hpa3
              have hpidb : get_player g n = Pid.b := by
                cases hq : get_player g n with
                | a => exact absurd hq hpid
                | b => rfl
              rw [if_pos hpidb] at hpb3
              rw [hpa3, hpb3]
              rw [show ({ g.pb with captured := g.pb.captured ++ [m] } : Player).captured
                  = g.pb.captured ++ [m] from rfl]
              rw [List.count_append]
              simp only [List.count_singleton, beq_iff_eq]
              omega

theorem run_moves_conserves (c : Cell) (hc : c ≠ Cell.X) (reqs : List Req) :
    ∀ g : Game, g.board.length = 7 → (∀ row ∈ g.board, row.length = 7) →
      (run_moves g reqs).board.length = 7
      ∧ (∀ row ∈ (run_moves g reqs).board, row.length = 7)
      ∧ marble_count (run_moves g reqs).board c
          + (run_moves g reqs).pa.captured.count c
          + (run_moves g reqs).pb.captured.count c
        = marble_count g.board c + g.pa.captured.count c + g.pb.captured.count c := by
  induction reqs with
  | nil =>
    intro g h1 h2
    exact ⟨h1, h2, rfl⟩
  | cons r rs ih =>
    intro g h1 h2
    obtain ⟨s1, s2, s3⟩ := make_move_conserves g r.name r.coords r.dir c hc h1 h2
    obtain ⟨t1, t2, t3⟩ := ih (make_move g r.name r.coords r.dir).2 s1 s2
    rw [show run_moves g (r :: rs)
        = run_moves (make_move g r.name r.coords r.dir).2 rs from rfl]
    exact ⟨t1, t2, by omega⟩

/-- C10: in every game state reachable from construction by any sequence of
`make_move` calls, marbles are conserved colour by colour: the number of cells
of the colour on the live board plus the number of captured marbles of that
colour held by player A and by player B equals the initial board count — 8 for
White, 8 for Black and 13 for Red. -/
theorem c10_marble_conservation (player_a_info player_b_info : String × Cell)
    (reqs : List Req) :
    marble_count (run_moves (init_game player_a_info player_b_info) reqs).board Cell.W
        + (run_moves (init_game player_a_info player_b_info) reqs).pa.captured.count Cell.W
        + (run_moves (init_game player_a_info player_b_info) reqs).pb.captured.count Cell.W
      = 8
    ∧ marble_count (run_moves (init_game player_a_info player_b_info) reqs).board Cell.B
        + (run_moves (init_game player_a_info player_b_info) reqs).pa.captured.count Cell.B
        + (run_moves (init_game player_a_info player_b_info) reqs).pb.captured.count Cell.B
      = 8
    ∧ marble_count (run_moves (init_game player_a_info player_b_info) reqs).board Cell.R
        + (run_moves (init_game player_a_info player_b_info) reqs).pa.captured.count Cell.R
        + (run_moves (init_game player_a_info player_b_info) reqs).pb.captured.count Cell.R
      = 13 := by
  have hbd : (init_game player_a_info player_b_info).board = initial_board := rfl
  have hca : (init_game player_a_info player_b_info).pa.captured = ([] : List Cell) := rfl
  have hcb : (init_game player_a_info player_b_info).pb.captured = ([] : List Cell) := rfl
  have hl : (init_game player_a_info player_b_info).board.length = 7 := by
    rw [hbd]
    decide
  have hrw : ∀ row ∈ (init_game player_a_info player_b_info).board, row.length = 7 := by
    rw [hbd]
    decide
  obtain ⟨-, -, hW⟩ := run_moves_conserves Cell.W (by decide) reqs
    (init_game player_a_info player_b_info) hl hrw
  obtain ⟨-, -, hB⟩ := run_moves_conserves Cell.B (by decide) reqs
    (init_game player_a_info player_b_info) hl hrw
  obtain ⟨-, -, hR⟩ := run_moves_conserves Cell.R (by decide) reqs
    (init_game player_a_info player_b_info) hl hrw
  rw [hbd, hca, hcb] at hW hB hR
  refine ⟨?_, ?_, ?_⟩
  · rw [hW]
    decide
  · rw [hB]
    decide
  · rw [hR]
    decide

end Kuba

